import Mathlib

/-! # Guest toolbox client: embedding and verification

A shallow embedding of `vsphere/guest/toolbox/client.go` and of `Upload` in
`vsphere/guest.go`.

Modelling conventions.

* The management API (process manager, file manager, the SOAP transfer client) is
  external.  Every call to it is answered by an oracle which sees the whole history
  of the run so far (the trace) and the arguments of the call; theorems quantify over
  all oracles.  Every call is recorded in the trace together with its answer.
* The data channel is recorded in the same trace (`send`, `close`).
* A Go function returns an `Outcome`: it returned an `error` value (possibly `nil`)
  or it panicked (index or slice out of range).  Deferred calls run in both cases.
* The poll loops `for { ... }` take a fuel argument; `none` means the loop was still
  running when the fuel ran out.
* File contents and the strings sent on the data channel are byte sequences; paths,
  commands and program specifications are text.
* `time.After`, `log.Printf` and `fmt.Println` have no effect on what is modelled.
-/

namespace Toolbox

/-- Byte sequences: Go `[]byte`, and Go `string` used as file content. -/
abbrev Bytes := List UInt8

/-- Go `error` values that occur in the client. -/
inductive Error
  | EOF
  | Errorf (msg : String)
  | exitError (msg : String) (exitCode : Int)
  | other (msg : String)
  deriving DecidableEq, Repr

/-- Method `ExitCode` of `*exitError` (client.go 44-46); other errors have none. -/
def Error.ExitCode : Error → Option Int
  | .exitError _ rc => some rc
  | _ => none

/-- Whether the dynamic type of the error is `*exitError`. -/
def Error.isExitError : Error → Bool
  | .exitError _ _ => true
  | _ => false

deriving instance DecidableEq for Except

/-- The successive results `(bytes read, err)` of the calls to `Read` on a reader.
Once the list is exhausted `Read` returns `(0, io.EOF)`. -/
abbrev ReadScript := List (Bytes × Option Error)

/-- Go `io.Copy(dst, src)` into an empty buffer: the bytes written and the error.
Data of a read is written before its error is looked at; `io.EOF` ends the copy
without error, any other error ends it and is returned. -/
def ioCopy : ReadScript → Bytes × Option Error
  | [] => ([], none)
  | (chunk, none) :: rest => (chunk ++ (ioCopy rest).1, (ioCopy rest).2)
  | (chunk, some .EOF) :: _ => (chunk, none)
  | (chunk, some e) :: _ => (chunk, some e)

/-- The dynamic types of `io.Reader` that `Upload` distinguishes. -/
inductive Reader
  | bytesBuffer (unread : Bytes)
  | bytesReader (unread : Bytes)
  | stringsReader (unread : Bytes)
  | osFile (stat : Except Error Int) (reads : ReadScript)
  | other (reads : ReadScript)
  deriving DecidableEq

/-- Go `io.Copy(buf, src)` for each kind of source. -/
def Reader.copy : Reader → Bytes × Option Error
  | .bytesBuffer b => (b, none)
  | .bytesReader b => (b, none)
  | .stringsReader b => (b, none)
  | .osFile _ reads => ioCopy reads
  | .other reads => ioCopy reads

/-- Type `types.GuestProgramSpec` of govmomi. -/
structure GuestProgramSpec where
  ProgramPath : String
  Arguments : String
  WorkingDirectory : String
  EnvVariables : List String
  deriving DecidableEq, Repr

/-- The fields of `types.GuestProcessInfo` that the client reads. `EndTime` is a
pointer, `none` is `nil`. -/
structure GuestProcessInfo where
  EndTime : Option Nat
  ExitCode : Int
  deriving DecidableEq, Repr

/-- The field of `soap.Upload` that the client reads and writes. -/
structure SoapUpload where
  ContentLength : Int
  deriving DecidableEq, Repr

/-- Value `soap.DefaultUpload` of govmomi; its `ContentLength` is not set. -/
def DefaultUpload : SoapUpload := { ContentLength := 0 }

/-- Everything a run does that is visible outside it: the calls to the management
API with their answers, the local copies into a buffer, and the operations on the
data channel. -/
inductive Event
  | CreateTemporaryFile (pfx sfx dir : String) (res : Except Error String)
  | DeleteFile (path : String) (res : Option Error)
  | MoveFile (src dst : String) (overwrite : Bool) (res : Option Error)
  | InitiateFileTransferFromGuest (src : String) (res : Except Error String)
  | InitiateFileTransferToGuest (dst : String) (contentLength : Int) (force : Bool)
      (res : Except Error String)
  | TransferURL (url : String) (res : Except Error String)
  | Download (u : String) (res : Except (Int × Error) (ReadScript × Int))
  | Upload (src : Reader) (u : String) (p : SoapUpload) (res : Option Error)
  | StartProgram (spec : GuestProgramSpec) (res : Except Error Int)
  | ListProcesses (pids : List Int) (res : Except Error (List GuestProcessInfo))
  | GetProcessManager (err : Option Error)
  | GetFileManager (err : Option Error)
  | copyOutput (content : Bytes) (n : Int)
  | copySource (src : Reader) (written : Bytes) (err : Option Error)
  | send (s : Bytes)
  | close
  deriving DecidableEq

abbrev Trace := List Event

/-- The SOAP client `vc` (`c.ProcessManager.Client()`): byte transfer against a
transfer URL. -/
structure VimClient where
  Download : Trace → String → Except (Int × Error) (ReadScript × Int)
  Upload : Trace → Reader → String → SoapUpload → Option Error

/-- Type `guest.ProcessManager` of govmomi. -/
structure ProcessManager where
  Client : VimClient
  StartProgram : Trace → GuestProgramSpec → Except Error Int
  ListProcesses : Trace → List Int → Except Error (List GuestProcessInfo)

/-- Type `guest.FileManager` of govmomi. -/
structure FileManager where
  CreateTemporaryFile : Trace → String → String → String → Except Error String
  DeleteFile : Trace → String → Option Error
  MoveFile : Trace → String → String → Bool → Option Error
  InitiateFileTransferFromGuest : Trace → String → Except Error String
  InitiateFileTransferToGuest : Trace → String → Int → Bool → Except Error String
  TransferURL : Trace → String → Except Error String

/-- Constant `types.VirtualMachineGuestOsFamilyWindowsGuest` of govmomi. -/
def VirtualMachineGuestOsFamilyWindowsGuest : String := "windowsGuest"

/-- Type `Client` (client.go 21-26). The authentication is handed to every call
unchanged and is left out. -/
structure Client where
  ProcessManager : ProcessManager
  FileManager : FileManager
  GuestFamily : String

/-- How a Go function ended. -/
inductive Outcome
  | returned (err : Option Error)
  | panicked
  deriving DecidableEq

/-- Control after a statement: go on with a value, return, or panic. -/
inductive Ctl (α : Type)
  | next (a : α)
  | ret (err : Option Error)
  | panic

/-- Run a deferred call on the way out of a function, whatever the outcome. -/
def deferred (d : Trace → Trace) (r : Option (Outcome × Trace)) : Option (Outcome × Trace) :=
  r.map fun x => (x.1, d x.2)

/-! ## Scratch files -/

/-- Method `rm` (client.go 28-33): the error of `DeleteFile` is only logged. -/
def Client.rm (c : Client) (path : String) (tr : Trace) : Trace :=
  tr ++ [.DeleteFile path (c.FileManager.DeleteFile tr path)]

/-- The call `c.FileManager.CreateTemporaryFile(ctx, auth, pfx, sfx, dir)`. -/
def Client.createTemporaryFile (c : Client) (pfx sfx dir : String) (tr : Trace) :
    Except Error String × Trace :=
  let r := c.FileManager.CreateTemporaryFile tr pfx sfx dir
  (r, tr ++ [.CreateTemporaryFile pfx sfx dir r])

/-- Method `mktemp` (client.go 35-37). -/
def Client.mktemp (c : Client) (tr : Trace) : Except Error String × Trace :=
  c.createTemporaryFile "govmomi-" "" "" tr

/-! ## The archive reader -/

/-- Variable `gzipHeader` (client.go 630). -/
def gzipHeader : Bytes := [0x1f, 0x8b, 0x08]

/-- Variable `gzipHeaderLen` (client.go 631). -/
def gzipHeaderLen : Nat := gzipHeader.length

/-- Go `buf[a:b]` for `a ≤ b ≤ len(buf)`. -/
def subslice (buf : Bytes) (a b : Nat) : Bytes := (buf.take b).drop a

/-- Method `archiveReader.Read` (client.go 634-646). `buf` is the buffer after the
underlying `Read` has filled it and `(nr, err)` is what the underlying `Read`
returned, with `nr ≤ len(buf)`. -/
def archiveReader.Read (buf : Bytes) (nr : Nat) (err : Option Error) : Nat × Option Error :=
  if nr ≥ gzipHeaderLen then
    if subslice buf (nr - gzipHeaderLen) nr = gzipHeader then
      (nr - gzipHeaderLen, some .EOF)
    else (nr, err)
  else (nr, err)

/-- One result of the underlying reader seen through `archiveReader.Read`: the
underlying `Read` wrote `chunk` into the buffer and returned `(len(chunk), err)`;
the caller is handed the first `nr` bytes of the buffer. -/
def archiveReader.result (r : Bytes × Option Error) : Bytes × Option Error :=
  ((r.1.take (archiveReader.Read r.1 r.1.length r.2).1), (archiveReader.Read r.1 r.1.length r.2).2)

/-- The reader `&archiveReader{ReadCloser: f}`: every `Read` goes through
`archiveReader.Read`. An exhausted reader returns `(0, io.EOF)`, which
`archiveReader.Read` passes on. -/
def archiveReader (f : ReadScript) : ReadScript := f.map archiveReader.result

/-- What a consumer that reads until the first error (such as `io.Copy`) is
delivered. -/
def delivered (f : ReadScript) : Bytes := (ioCopy f).1

/-! ## Download and Upload -/

/-- Go `strings.HasPrefix`. -/
def hasPrefix (s p : String) : Bool := p.toList.isPrefixOf s.toList

/-- Go `strings.HasSuffix`. -/
def hasSuffix (s p : String) : Bool := p.toList.isSuffixOf s.toList

/-- Function `isDir` (client.go 648-655). `urlParse` is `url.Parse` followed by the
selection of the field `Path`. -/
def isDir (urlParse : String → Except Error String) (src : String) : Bool :=
  match urlParse src with
  | .error _ => false
  | .ok path => hasSuffix path "/"

/-- Method `Download` (client.go 658-683). -/
def Client.Download (urlParse : String → Except Error String) (c : Client) (src : String)
    (tr : Trace) : Except (Int × Error) (ReadScript × Int) × Trace :=
  let vc := c.ProcessManager.Client
  let info := c.FileManager.InitiateFileTransferFromGuest tr src
  let tr := tr ++ [.InitiateFileTransferFromGuest src info]
  match info with
  | .error err => (.error (0, err), tr)
  | .ok infoUrl =>
    let u := c.FileManager.TransferURL tr infoUrl
    let tr := tr ++ [.TransferURL infoUrl u]
    match u with
    | .error err => (.error (0, err), tr)
    | .ok u =>
      let r := vc.Download tr u
      let tr := tr ++ [.Download u r]
      match r with
      | .error (n, err) => (.error (n, err), tr)
      | .ok (f, n) =>
        if hasPrefix src "/archive:/" || isDir urlParse src then
          (.ok (archiveReader f, n), tr)
        else
          (.ok (f, n), tr)

/-- The type switch of `Upload` (client.go 692-706): the content length the source
reports, or the error of `Stat`. Sources of other types leave the length at 0. -/
def Reader.knownLength : Reader → Except Error Int
  | .bytesBuffer b => .ok b.length
  | .bytesReader b => .ok b.length
  | .stringsReader b => .ok b.length
  | .osFile (.error serr) _ => .error serr
  | .osFile (.ok size) _ => .ok size
  | .other _ => .ok 0

/-- The lines 720-730 of `Upload`: the transfer of `src` with the settled `p`. -/
def Client.transfer (c : Client) (src : Reader) (dst : String) (p : SoapUpload) (force : Bool)
    (tr : Trace) : Option Error × Trace :=
  let vc := c.ProcessManager.Client
  let url := c.FileManager.InitiateFileTransferToGuest tr dst p.ContentLength force
  let tr := tr ++ [.InitiateFileTransferToGuest dst p.ContentLength force url]
  match url with
  | .error err => (some err, tr)
  | .ok url =>
    let u := c.FileManager.TransferURL tr url
    let tr := tr ++ [.TransferURL url u]
    match u with
    | .error err => (some err, tr)
    | .ok u =>
      let r := vc.Upload tr src u p
      (r, tr ++ [.Upload src u p r])

/-- Method `Upload` (client.go 686-731). The file attributes are handed on
unchanged and are left out. -/
def Client.Upload (c : Client) (src : Reader) (dst : String) (p : SoapUpload) (force : Bool)
    (tr : Trace) : Option Error × Trace :=
  if p.ContentLength = 0 then
    match src.knownLength with
    | .error serr => (some serr, tr)
    | .ok len =>
      let p : SoapUpload := { p with ContentLength := len }
      if p.ContentLength = 0 then
        let buf := src.copy
        let tr := tr ++ [.copySource src buf.1 buf.2]
        let p : SoapUpload := { p with ContentLength := buf.1.length }
        match buf.2 with
        | some err => (some err, tr)
        | none => c.transfer (.bytesBuffer buf.1) dst p force tr
      else
        c.transfer src dst p force tr
  else
    c.transfer src dst p force tr

/-! ## Running programs -/

/-- Go `s[l:n]` on a string with `int64` bounds: `none` is the run-time panic
"slice bounds out of range". -/
def sliceString (s : Bytes) (l n : Int) : Option Bytes :=
  if 0 ≤ l ∧ l ≤ n ∧ n ≤ (s.length : Int) then some ((s.take n.toNat).drop l.toNat) else none

/-- The body of `for index, out := range output` in the poll loop and after it
(client.go 125-142 and 151-166, 259-277 and 287-302, 378-396 and 406-423), and the
lines 582-591 and 600-607 of `RunScript`: download the scratch file `out.path`,
copy it into a fresh buffer, send `buf.String()[l:n]`, and hand back `n`, the next
value of `l`. `out` is `none` when `out.Writer == nil` (the entry is skipped) and in
`RunSimpleCommands`, which downloads nothing. -/
def Client.pollOutput (urlParse : String → Except Error String) (c : Client)
    (out : Option String) (l : Int) (tr : Trace) : Ctl Int × Trace :=
  match out with
  | none => (.next l, tr)
  | some path =>
    match c.Download urlParse path tr with
    | (.error (_, err), tr) => (.ret (some err), tr)
    | (.ok (f, n), tr) =>
      let buf := (ioCopy f).1
      let tr := tr ++ [.copyOutput buf n]
      match sliceString buf l n with
      | none => (.panic, tr)
      | some s => (.next n, tr ++ [.send s])

/-- The poll loop `for { ... }` (client.go 113-148, 247-284, 366-403, 483-498,
571-598) started with offset `l`: on `break` it hands back the exit code and the
offset. `procs[0]` panics on an empty list. -/
def Client.pollLoop (urlParse : String → Except Error String) (c : Client)
    (out : Option String) (pid : Int) : Nat → Int → Trace → Option (Ctl (Int × Int) × Trace)
  | 0, _, _ => none
  | fuel + 1, l, tr =>
    let procs := c.ProcessManager.ListProcesses tr [pid]
    let tr := tr ++ [.ListProcesses [pid] procs]
    match procs with
    | .error err => some (.ret (some err), tr)
    | .ok [] => some (.panic, tr)
    | .ok (p :: _) =>
      match p.EndTime with
      | none =>
        match c.pollOutput urlParse out l tr with
        | (.ret err, tr) => some (.ret err, tr)
        | (.panic, tr) => some (.panic, tr)
        | (.next l, tr) => Client.pollLoop urlParse c out pid fuel l tr
      | some _ => some (.next (p.ExitCode, l), tr)

/-- The error `&exitError{fmt.Errorf("%s: exit %d", name, rc), rc}`. -/
def newExitError (name : String) (rc : Int) : Error :=
  .exitError (name ++ ": exit " ++ toString rc) rc

/-- The common tail of the run methods, from `StartProgram` to the final `return`
(client.go 105-172, 239-309, 358-429, 477-504, 563-615): start the program, poll
until it has ended, download and send the rest of the output, and turn the exit
code into the result. `name` is the name used in the exit error. -/
def Client.startAndWait (urlParse : String → Except Error String) (c : Client)
    (spec : GuestProgramSpec) (name : String) (out : Option String) (fuel : Nat) (tr : Trace) :
    Option (Outcome × Trace) :=
  let pid := c.ProcessManager.StartProgram tr spec
  let tr := tr ++ [.StartProgram spec pid]
  match pid with
  | .error err => some (.returned (some err), tr)
  | .ok pid =>
    match c.pollLoop urlParse out pid fuel 0 tr with
    | none => none
    | some (.ret err, tr) => some (.returned err, tr)
    | some (.panic, tr) => some (.panicked, tr)
    | some (.next (rc, l), tr) =>
      match c.pollOutput urlParse out l tr with
      | (.ret err, tr) => some (.returned err, tr)
      | (.panic, tr) => some (.panicked, tr)
      | (.next _, tr) =>
        if rc ≠ 0 then some (.returned (some (newExitError name rc)), tr)
        else some (.returned none, tr)

/-- The PowerShell interpreter of the guest (client.go 85, 214, 345, 464, 541). -/
def powershell : String := "C:\\WINDOWS\\system32\\WindowsPowerShell\\v1.0\\powershell.exe"

/-- Go `strings.Join`. -/
def join (xs : List String) (sep : String) : String := sep.intercalate xs

/-- The fields of `exec.Cmd` that `Run` reads. `Stdout` is `none` for a `nil`
writer. -/
structure Cmd where
  Path : String
  Args : List String
  Env : List String
  Dir : String
  Stdout : Option Unit

/-- The lines 78-103 of `Run`: the program specification for the guest family,
`args` being `cmd.Args` after the loop over `output`. -/
def Run.spec (family : String) (cmd : Cmd) (args : List String) : GuestProgramSpec :=
  if family = VirtualMachineGuestOsFamilyWindowsGuest then
    { ProgramPath := powershell
      Arguments := join ([cmd.Path] ++ args) " "
      EnvVariables := cmd.Env
      WorkingDirectory := cmd.Dir }
  else if !cmd.Path.toList.contains '/' then
    { ProgramPath := "/bin/bash"
      Arguments := join ["-c", "'" ++ join ([cmd.Path] ++ args) " " ++ "'"] " "
      EnvVariables := cmd.Env
      WorkingDirectory := cmd.Dir }
  else
    { ProgramPath := cmd.Path
      Arguments := join args " "
      EnvVariables := cmd.Env
      WorkingDirectory := cmd.Dir }

/-- Method `Run` (client.go 49-173). -/
def Client.Run (urlParse : String → Except Error String) (c : Client) (cmd : Cmd)
    (fuel : Nat) (tr : Trace) : Option (Outcome × Trace) :=
  deferred (fun tr => tr ++ [.close]) <|
    match cmd.Stdout with
    | none =>
      c.startAndWait urlParse (Run.spec c.GuestFamily cmd cmd.Args) cmd.Path none fuel tr
    | some _ =>
      match c.mktemp tr with
      | (.error err, tr) => some (.returned (some err), tr)
      | (.ok dst, tr) =>
        deferred (c.rm dst) <|
          c.startAndWait urlParse
            (Run.spec c.GuestFamily cmd (cmd.Args ++ ["| Out-File ", dst, " -encoding ASCII"]))
            cmd.Path (some dst) fuel tr

/-- The lines 207-235 of `RunCommands` (and 340-356, 459-475): program path and
arguments of a batch whose payload is `payload`, with output file `outPath`. On a
guest that is not of the Windows family the error built by `fmt.Errorf` is dropped
and both stay empty. -/
def batchSpec (family : String) (payload : String) (outPath : String) : GuestProgramSpec :=
  if family = VirtualMachineGuestOsFamilyWindowsGuest then
    { ProgramPath := powershell
      Arguments := join ["-Command", "\"& \x7b " ++ payload ++ " \x7d\"", "| Out-File", outPath,
        "-encoding ASCII"] " "
      WorkingDirectory := ""
      EnvVariables := [] }
  else
    { ProgramPath := "", Arguments := join [] " ", WorkingDirectory := "", EnvVariables := [] }

/-- Method `RunCommands` (client.go 176-310). -/
def Client.RunCommands (urlParse : String → Except Error String) (c : Client)
    (commands : List String) (fuel : Nat) (tr : Trace) : Option (Outcome × Trace) :=
  deferred (fun tr => tr ++ [.close]) <|
    match c.mktemp tr with
    | (.error err, tr) => some (.returned (some err), tr)
    | (.ok dst, tr) =>
      deferred (c.rm dst) <|
        let spec := batchSpec c.GuestFamily (join commands ";") dst
        c.startAndWait urlParse spec spec.ProgramPath (some dst) fuel tr

/-- Method `RunCommand` (client.go 313-430). There is no `defer close(data)`. -/
def Client.RunCommand (urlParse : String → Except Error String) (c : Client)
    (command : String) (fuel : Nat) (tr : Trace) : Option (Outcome × Trace) :=
  match c.mktemp tr with
  | (.error err, tr) => some (.returned (some err), tr)
  | (.ok dst, tr) =>
    deferred (c.rm dst) <|
      let spec := batchSpec c.GuestFamily command dst
      c.startAndWait urlParse spec spec.ProgramPath (some dst) fuel tr

/-- Method `RunSimpleCommands` (client.go 433-505): no data channel, and the output
file is never downloaded. -/
def Client.RunSimpleCommands (urlParse : String → Except Error String) (c : Client)
    (commands : List String) (fuel : Nat) (tr : Trace) : Option (Outcome × Trace) :=
  match c.mktemp tr with
  | (.error err, tr) => some (.returned (some err), tr)
  | (.ok dst, tr) =>
    deferred (c.rm dst) <|
      let spec := batchSpec c.GuestFamily (join commands ";") dst
      c.startAndWait urlParse spec spec.ProgramPath none fuel tr

/-- Method `RunScript` (client.go 508-616). -/
def Client.RunScript (urlParse : String → Except Error String) (c : Client)
    (script : Bytes) (fuel : Nat) (tr : Trace) : Option (Outcome × Trace) :=
  deferred (fun tr => tr ++ [.close]) <|
    match c.createTemporaryFile "govmomi-" ".ps1" "" tr with
    | (.error err, tr) => some (.returned (some err), tr)
    | (.ok execfile, tr) =>
      deferred (c.rm execfile) <|
        match c.Upload (.stringsReader script) execfile DefaultUpload true tr with
        | (some err, tr) => some (.returned (some err), tr)
        | (none, tr) =>
          match c.mktemp tr with
          | (.error err, tr) => some (.returned (some err), tr)
          | (.ok outFile, tr) =>
            deferred (c.rm outFile) <|
              if c.GuestFamily = VirtualMachineGuestOsFamilyWindowsGuest then
                c.startAndWait urlParse
                  { ProgramPath := powershell
                    Arguments := join [execfile, "| Out-File", outFile, "-encoding ASCII"] " "
                    WorkingDirectory := ""
                    EnvVariables := [] }
                  powershell (some outFile) fuel tr
              else
                some (.returned (some (.Errorf "not a windows system")), tr)

/-- The deferred call `c.FileManager.DeleteFile(ctx, c.Authentication, vcFile)`
(client.go 747, guest.go 117): its result is dropped. -/
def Client.deleteFile (c : Client) (path : String) (tr : Trace) : Trace :=
  tr ++ [.DeleteFile path (c.FileManager.DeleteFile tr path)]

/-- The lines 749-765 of `UploadFile` and 119-135 of `Upload` in guest.go: upload to
the staging file, then unpack it or move it. The result of `RunSimpleCommands` is
not assigned. -/
def Client.uploadStaged (urlParse : String → Except Error String) (c : Client)
    (vcFile dst : String) (f : Reader) (isDir : Bool) (fuel : Nat) (tr : Trace) :
    Option (Outcome × Trace) :=
  match c.Upload f vcFile DefaultUpload true tr with
  | (some err, tr) => some (.returned (some err), tr)
  | (none, tr) =>
    if isDir then
      let cmd := "tar -xzvf " ++ vcFile ++ " -C " ++ dst
      match c.RunSimpleCommands urlParse ["mkdir " ++ dst ++ " -Force", cmd] fuel tr with
      | none => none
      | some (.panicked, tr) => some (.panicked, tr)
      | some (.returned _, tr) => some (.returned none, tr)
    else
      let err := c.FileManager.MoveFile tr vcFile dst true
      let tr := tr ++ [.MoveFile vcFile dst true err]
      match err with
      | some err => some (.returned (some err), tr)
      | none => some (.returned none, tr)

/-- Method `UploadFile` (client.go 739-766). -/
def Client.UploadFile (urlParse : String → Except Error String) (c : Client)
    (dst : String) (f : Reader) (isDir : Bool) (fuel : Nat) (tr : Trace) :
    Option (Outcome × Trace) :=
  match c.createTemporaryFile "" "" "" tr with
  | (.error err, tr) => some (.returned (some err), tr)
  | (.ok vcFile, tr) =>
    deferred (c.deleteFile vcFile) <| c.uploadStaged urlParse vcFile dst f isDir fuel tr

/-- Method `UploadScript` (client.go 734-736). -/
def Client.UploadScript (urlParse : String → Except Error String) (c : Client)
    (dst : String) (f : Reader) (fuel : Nat) (tr : Trace) : Option (Outcome × Trace) :=
  c.UploadFile urlParse dst f false fuel tr

/-- Type `guest.OperationsManager` of govmomi: it hands out the two managers. -/
structure OperationsManager where
  ProcessManager : Trace → Except Error ProcessManager
  FileManager : Trace → Except Error FileManager

/-! ## The run methods as one family -/

/-- A call of one of the run methods with its arguments. -/
inductive Invocation
  | Run (cmd : Cmd)
  | RunCommands (commands : List String)
  | RunCommand (command : String)
  | RunSimpleCommands (commands : List String)
  | RunScript (script : Bytes)

/-- The run methods with a data channel. -/
def Invocation.streaming : Invocation → Bool
  | .RunSimpleCommands _ => false
  | _ => true

/-- Perform the call on a fresh trace. -/
def Client.invoke (urlParse : String → Except Error String) (c : Client) (inv : Invocation)
    (fuel : Nat) : Option (Outcome × Trace) :=
  match inv with
  | .Run cmd => c.Run urlParse cmd fuel []
  | .RunCommands commands => c.RunCommands urlParse commands fuel []
  | .RunCommand command => c.RunCommand urlParse command fuel []
  | .RunSimpleCommands commands => c.RunSimpleCommands urlParse commands fuel []
  | .RunScript script => c.RunScript urlParse script fuel []

/-! ## Reading a trace -/

/-- The strings sent on the data channel, in order. -/
def sent : Trace → List Bytes
  | [] => []
  | .send s :: tr => s :: sent tr
  | _ :: tr => sent tr

/-- The downloads of the output scratch file, in order: the content copied into the
buffer and the length `n` the download reported. -/
def outputs : Trace → List (Bytes × Int)
  | [] => []
  | .copyOutput content n :: tr => (content, n) :: outputs tr
  | _ :: tr => outputs tr

/-- The number of times the data channel was closed. -/
def closes : Trace → Nat
  | [] => 0
  | .close :: tr => closes tr + 1
  | _ :: tr => closes tr

/-- The program specifications handed to `StartProgram`, in order. -/
def started : Trace → List GuestProgramSpec
  | [] => []
  | .StartProgram spec _ :: tr => spec :: started tr
  | _ :: tr => started tr

/-- The number of `ListProcesses` calls. -/
def polls : Trace → Nat
  | [] => 0
  | .ListProcesses _ _ :: tr => polls tr + 1
  | _ :: tr => polls tr

/-- The number of `CreateTemporaryFile` calls. -/
def temps : Trace → Nat
  | [] => 0
  | .CreateTemporaryFile _ _ _ _ :: tr => temps tr + 1
  | _ :: tr => temps tr

/-- The exit codes of the status reports that show the process ended, in order. -/
def exits : Trace → List Int
  | [] => []
  | .ListProcesses _ (.ok (p :: _)) :: tr =>
    match p.EndTime with
    | some _ => p.ExitCode :: exits tr
    | none => exits tr
  | _ :: tr => exits tr

/-- The errors answered to status queries and to the steps of a download, in
order. -/
def pollErrors : Trace → List Error
  | [] => []
  | .ListProcesses _ (.error e) :: tr => e :: pollErrors tr
  | .InitiateFileTransferFromGuest _ (.error e) :: tr => e :: pollErrors tr
  | .TransferURL _ (.error e) :: tr => e :: pollErrors tr
  | .Download _ (.error (_, e)) :: tr => e :: pollErrors tr
  | _ :: tr => pollErrors tr

/-- Calls that work on guest files and transfers, as opposed to the process calls
and the data channel. -/
def Event.isFileOp : Event → Bool
  | .CreateTemporaryFile _ _ _ _ => true
  | .DeleteFile _ _ => true
  | .MoveFile _ _ _ _ => true
  | .InitiateFileTransferFromGuest _ _ => true
  | .InitiateFileTransferToGuest _ _ _ _ => true
  | .TransferURL _ _ => true
  | .Download _ _ => true
  | .Upload _ _ _ _ => true
  | .copySource _ _ _ => true
  | _ => false

/-- The strings a run sends for a sequence of downloads when it starts with the
recorded offset `l`: for every download the slice from the recorded offset to the
reported length, which then becomes the recorded offset. A slice out of range
panics, which ends the run. -/
def deltas : Int → List (Bytes × Int) → List Bytes
  | _, [] => []
  | l, (content, n) :: rest =>
    match sliceString content l n with
    | some s => s :: deltas n rest
    | none => []

/-- The recorded offset after a sequence of downloads. -/
def offsetAfter : Int → List (Bytes × Int) → Int
  | l, [] => l
  | _, (_, n) :: rest => offsetAfter n rest

/-- Every slice of a sequence of downloads is in range. -/
def inBounds : Int → List (Bytes × Int) → Prop
  | _, [] => True
  | l, (content, n) :: rest => (sliceString content l n).isSome ∧ inBounds n rest

/-- The output file only grows between polls, and every download reports the byte
length of the content it delivered. -/
def growing : List (Bytes × Int) → Prop
  | [] => True
  | [(content, n)] => n = content.length
  | (content, n) :: (next, m) :: rest =>
    n = content.length ∧ content <+: next ∧ growing ((next, m) :: rest)

/-- The result the run methods return for the exit code `rc`. -/
def exitResult (name : String) (rc : Int) : Option Error :=
  if rc ≠ 0 then some (newExitError name rc) else none

/-! ## A scripted guest for the examples -/

/-- A guest whose program has written `contents[i]` to the output file at the time
of the download number `i`, is reported running by the first `running` status
queries and ended with exit code `rc` afterwards; `started` is the answer of
`StartProgram`. Every other call succeeds. -/
def scriptedGuest (family : String) (contents : List Bytes) (running : Nat) (rc : Int)
    (started : Except Error Int) : Client where
  ProcessManager :=
    { Client :=
        { Download := fun tr _ =>
            .ok ([(contents.getD (outputs tr).length [], none)],
              (contents.getD (outputs tr).length []).length)
          Upload := fun _ _ _ _ => none }
      StartProgram := fun _ _ => started
      ListProcesses := fun tr _ =>
        if polls tr < running then .ok [{ EndTime := none, ExitCode := 0 }]
        else .ok [{ EndTime := some 1, ExitCode := rc }] }
  FileManager :=
    { CreateTemporaryFile := fun tr pfx sfx _ =>
        .ok (pfx ++ (if temps tr = 0 then "a" else "b") ++ sfx)
      DeleteFile := fun _ _ => none
      MoveFile := fun _ _ _ _ => none
      InitiateFileTransferFromGuest := fun _ src => .ok src
      InitiateFileTransferToGuest := fun _ dst _ _ => .ok dst
      TransferURL := fun _ url => .ok url }
  GuestFamily := family

/-- A stand-in for `url.Parse` that takes the whole string as the path. -/
def parsePlain (s : String) : Except Error String := .ok s

end Toolbox

namespace Vsphere

open Toolbox

/-- Function `Upload` of guest.go (90-137). -/
def Upload (urlParse : String → Except Error String) (opsmgr : OperationsManager)
    (f : Reader) (suffix dst : String) (isDir : Bool) (fuel : Nat) (tr : Trace) :
    Option (Outcome × Trace) :=
  match opsmgr.ProcessManager tr with
  | .error err => some (.returned (some err), tr ++ [.GetProcessManager (some err)])
  | .ok pmgr =>
    let tr := tr ++ [.GetProcessManager none]
    match opsmgr.FileManager tr with
    | .error err => some (.returned (some err), tr ++ [.GetFileManager (some err)])
    | .ok fmgr =>
      let tr := tr ++ [.GetFileManager none]
      let c : Client :=
        { ProcessManager := pmgr
          FileManager := fmgr
          GuestFamily := VirtualMachineGuestOsFamilyWindowsGuest }
      match c.createTemporaryFile "" suffix "" tr with
      | (.error err, tr) => some (.returned (some err), tr)
      | (.ok vcFile, tr) =>
        deferred (c.deleteFile vcFile) <| c.uploadStaged urlParse vcFile dst f isDir fuel tr

end Vsphere

namespace Toolbox

/-- The trace of a run that ended; empty when it did not. -/
def traceOf (r : Option (Outcome × Trace)) : Trace :=
  match r with
  | some x => x.2
  | none => []

/-- The content lengths handed to `InitiateFileTransferToGuest`, in order. -/
def initiated : Trace → List Int
  | [] => []
  | .InitiateFileTransferToGuest _ n _ _ :: tr => n :: initiated tr
  | _ :: tr => initiated tr

/-- The sources that `Upload` copied into a buffer, in order. -/
def buffered : Trace → List Reader
  | [] => []
  | .copySource src _ _ :: tr => src :: buffered tr
  | _ :: tr => buffered tr

/-- The sources handed to the transfer `vc.Client.Upload`, with the content length
set in `p`, in order. -/
def transferred : Trace → List (Reader × Int)
  | [] => []
  | .Upload src _ p _ :: tr => (src, p.ContentLength) :: transferred tr
  | _ :: tr => transferred tr

/-- A Windows guest whose program prints "hi" at once and the line end only after
the second poll: the second download finds nothing new. -/
def idleGuest : Client :=
  scriptedGuest VirtualMachineGuestOsFamilyWindowsGuest
    [[104, 105], [104, 105], [104, 105, 13, 10]] 2 0 (.ok 7)

/-- The run of `echo hi` as a batch on `idleGuest`. -/
def idleRun : Option (Outcome × Trace) :=
  idleGuest.invoke parsePlain (.RunCommands ["echo hi"]) 5

/-- A Windows guest whose program ends with exit code 3 after one poll. -/
def failingGuest : Client :=
  scriptedGuest VirtualMachineGuestOsFamilyWindowsGuest [[111], [111, 107]] 1 3 (.ok 7)

/-- The run of a script on `failingGuest`. -/
def failingRun : Option (Outcome × Trace) :=
  failingGuest.invoke parsePlain (.RunScript [101, 120, 105, 116, 32, 51]) 5

/-- A Linux guest on which every call succeeds and the program ends at once with
exit code 0. -/
def linuxGuest : Client := scriptedGuest "linuxGuest" [[]] 0 0 (.ok 7)

/-- A Windows guest on which `StartProgram` fails. -/
def brokenGuest : Client :=
  scriptedGuest VirtualMachineGuestOsFamilyWindowsGuest [[]] 0 0 (.error (.other "cannot start"))

/-- An operations manager that hands out the managers of a client. -/
def managersOf (c : Client) : OperationsManager where
  ProcessManager := fun _ => .ok c.ProcessManager
  FileManager := fun _ => .ok c.FileManager

/-- The errors answered by `StartProgram`, in order. -/
def startFailures : Trace → List Error
  | [] => []
  | .StartProgram _ (.error e) :: tr => e :: startFailures tr
  | _ :: tr => startFailures tr

/-- A device opened as a file: `Stat` reports size 0, reading delivers three bytes. -/
def deviceFile : Reader := .osFile (.ok 0) [([1, 2, 3], some .EOF)]

/-- Events that neither send, nor download output, nor report the process ended. -/
def silent (t : Trace) : Prop := sent t = [] ∧ outputs t = [] ∧ exits t = []

/-- What a run guarantees about the events `new` it adds to the trace and about its
outcome `o`: the strings sent are the deltas of the downloads, from offset 0; and if
the process was reported ended with exit code `rc` while no status query and no
download failed, the run panicked or returned the result for `rc`. -/
def RunInv (new : Trace) (o : Outcome) : Prop :=
  sent new = deltas 0 (outputs new) ∧
    ∀ rc ∈ exits new, pollErrors new = [] →
      o = .panicked ∨ ∃ name, o = .returned (exitResult name rc)

end Toolbox

namespace Toolbox

/-- The scratch paths answered by successful `CreateTemporaryFile` calls, in order. -/
def created : Trace → List String
  | [] => []
  | .CreateTemporaryFile _ _ _ (.ok path) :: tr => path :: created tr
  | _ :: tr => created tr

/-- The paths handed to `DeleteFile`, in order, whatever the answer. -/
def deleted : Trace → List String
  | [] => []
  | .DeleteFile path _ :: tr => path :: deleted tr
  | _ :: tr => deleted tr

/-- The number of status queries that were answered with an empty list. -/
def emptyReports : Trace → Nat
  | [] => 0
  | .ListProcesses _ (.ok []) :: tr => emptyReports tr + 1
  | _ :: tr => emptyReports tr

/-- The steps of an upload. -/
def Event.isUploadStep : Event → Bool
  | .InitiateFileTransferToGuest _ _ _ _ => true
  | .TransferURL _ _ => true
  | .Upload _ _ _ _ => true
  | .copySource _ _ _ => true
  | _ => false

/-- The steps of the common tail of the run methods: the process calls, the steps
of a download, the copy of the output and the sends. -/
def Event.isRunStep : Event → Bool
  | .StartProgram _ _ => true
  | .ListProcesses _ _ => true
  | .InitiateFileTransferFromGuest _ _ => true
  | .TransferURL _ _ => true
  | .Download _ _ => true
  | .copyOutput _ _ => true
  | .send _ => true
  | _ => false

/-- A property of the events a run adds and of its outcome that is kept by every
way in which the run methods frame their common tail: returning an error at once, a
failed or a successful `CreateTemporaryFile` with its deferred `rm`, the deferred
`close(data)`, and a preceding upload. -/
structure RunClosed (P : Trace → Outcome → Prop) : Prop where
  ret : ∀ err, P [] (.returned (some err))
  createFailed : ∀ pfx sfx dir err new o,
    P new o → P (.CreateTemporaryFile pfx sfx dir (.error err) :: new) o
  temp : ∀ pfx sfx dir dst res new o,
    P new o → P (.CreateTemporaryFile pfx sfx dir (.ok dst) :: (new ++ [.DeleteFile dst res])) o
  close : ∀ new o, P new o → P (new ++ [.close]) o
  upload : ∀ pre new o, (∀ ev ∈ pre, ev.isUploadStep = true) → P new o → P (pre ++ new) o

/-- The client with the answers of `DeleteFile` replaced by `del`. -/
def Client.withDeleteFile (c : Client) (del : Trace → String → Option Error) : Client :=
  { c with FileManager := { c.FileManager with DeleteFile := del } }

/-- Every scratch file is deleted once: the paths deleted are the paths created, in
reverse order. -/
def Cleaned (new : Trace) (_o : Outcome) : Prop := deleted new = (created new).reverse

/-- A run panics only after an empty process list or a slice out of range. -/
def PanicCause (new : Trace) (o : Outcome) : Prop :=
  o = .panicked → emptyReports new ≠ 0 ∨ ¬ inBounds 0 (outputs new)

/-- What `Run` hands to `StartProgram` on a guest that is not of the Windows family,
written out: a command whose path contains no "/" is wrapped in `/bin/bash -c '...'`,
any other command is started as it is. `args` are the arguments after the output
redirection has been appended. -/
def fallbackSpec (cmd : Cmd) (args : List String) : GuestProgramSpec :=
  if '/' ∈ cmd.Path.toList then
    { ProgramPath := cmd.Path
      Arguments := join args " "
      WorkingDirectory := cmd.Dir
      EnvVariables := cmd.Env }
  else
    { ProgramPath := "/bin/bash"
      Arguments := "-c '" ++ join (cmd.Path :: args) " " ++ "'"
      WorkingDirectory := cmd.Dir
      EnvVariables := cmd.Env }

/-- The command `bin/ls -l`, with a relative path that contains a "/", and no
writer for the output. -/
def relativeCmd : Cmd := { Path := "bin/ls", Args := ["-l"], Env := [], Dir := "", Stdout := none }

/-- The command `ls -l` with a writer for the output. -/
def plainCmd : Cmd := { Path := "ls", Args := ["-l"], Env := [], Dir := "", Stdout := some () }

end Toolbox

/-! # Lemmas on traces -/

namespace Toolbox

theorem sent_append (a b : Trace) : sent (a ++ b) = sent a ++ sent b := by
  induction a with
  | nil => rfl
  | cons ev a ih => cases ev <;> simp [sent, ih]

theorem outputs_append (a b : Trace) : outputs (a ++ b) = outputs a ++ outputs b := by
  induction a with
  | nil => rfl
  | cons ev a ih => cases ev <;> simp [outputs, ih]

theorem closes_append (a b : Trace) : closes (a ++ b) = closes a + closes b := by
  induction a with
  | nil => simp [closes]
  | cons ev a ih => cases ev <;> simp [closes, ih]; omega

theorem started_append (a b : Trace) : started (a ++ b) = started a ++ started b := by
  induction a with
  | nil => rfl
  | cons ev a ih => cases ev <;> simp [started, ih]

theorem exits_append (a b : Trace) : exits (a ++ b) = exits a ++ exits b := by
  induction a with
  | nil => rfl
  | cons ev a ih =>
    cases ev with
    | ListProcesses pids res =>
      rcases res with e | ps
      · simp [exits, ih]
      · cases ps with
        | nil => simp [exits, ih]
        | cons p ps => cases h : p.EndTime <;> simp [exits, ih, h]
    | _ => simp [exits, ih]

theorem pollErrors_append (a b : Trace) : pollErrors (a ++ b) = pollErrors a ++ pollErrors b := by
  induction a with
  | nil => rfl
  | cons ev a ih =>
    cases ev with
    | ListProcesses pids res => rcases res with e | ps <;> simp [pollErrors, ih]
    | InitiateFileTransferFromGuest src res => rcases res with e | ps <;> simp [pollErrors, ih]
    | TransferURL src res => rcases res with e | ps <;> simp [pollErrors, ih]
    | Download src res => rcases res with ⟨n, e⟩ | ps <;> simp [pollErrors, ih]
    | _ => simp [pollErrors, ih]

theorem fileOps_quiet (new : Trace) (h : ∀ ev ∈ new, ev.isFileOp = true) :
    sent new = [] ∧ outputs new = [] ∧ closes new = 0 ∧ started new = [] ∧ exits new = [] := by
  induction new with
  | nil => simp [sent, outputs, closes, started, exits]
  | cons ev new ih =>
    have h1 := h ev (by simp)
    have h2 := ih (fun e he => h e (by simp [he]))
    cases ev <;> simp_all [Event.isFileOp, sent, outputs, closes, started, exits]

theorem Download_trace (urlParse : String → Except Error String) (c : Client) (src : String)
    (tr : Trace) :
    ∃ new, (c.Download urlParse src tr).2 = tr ++ new ∧ (∀ ev ∈ new, ev.isFileOp = true) ∧
      (∀ n e, (c.Download urlParse src tr).1 = .error (n, e) → pollErrors new ≠ []) ∧
      (∀ r, (c.Download urlParse src tr).1 = .ok r → pollErrors new = []) := by
  unfold Client.Download
  simp only []
  cases h1 : c.FileManager.InitiateFileTransferFromGuest tr src with
  | error e =>
    exact ⟨[.InitiateFileTransferFromGuest src (.error e)], by simp, by simp [Event.isFileOp],
      by simp [pollErrors], by simp⟩
  | ok infoUrl =>
    simp only []
    cases h2 : c.FileManager.TransferURL
        (tr ++ [Event.InitiateFileTransferFromGuest src (Except.ok infoUrl)]) infoUrl with
    | error e =>
      exact ⟨[.InitiateFileTransferFromGuest src (.ok infoUrl), .TransferURL infoUrl (.error e)],
        by simp, by simp [Event.isFileOp], by simp [pollErrors], by simp⟩
    | ok u =>
      simp only []
      cases h3 : c.ProcessManager.Client.Download
          (tr ++ [Event.InitiateFileTransferFromGuest src (Except.ok infoUrl)] ++
            [Event.TransferURL infoUrl (Except.ok u)]) u with
      | error e =>
        obtain ⟨n, e⟩ := e
        exact ⟨[.InitiateFileTransferFromGuest src (.ok infoUrl), .TransferURL infoUrl (.ok u),
          .Download u (.error (n, e))],
          by simp, by simp [Event.isFileOp], by simp [pollErrors], by simp⟩
      | ok r =>
        obtain ⟨f, n⟩ := r
        simp only []
        split
        · exact ⟨[.InitiateFileTransferFromGuest src (.ok infoUrl), .TransferURL infoUrl (.ok u),
            .Download u (.ok (f, n))],
            by simp, by simp [Event.isFileOp], by simp, by simp [pollErrors]⟩
        · exact ⟨[.InitiateFileTransferFromGuest src (.ok infoUrl), .TransferURL infoUrl (.ok u),
            .Download u (.ok (f, n))],
            by simp, by simp [Event.isFileOp], by simp, by simp [pollErrors]⟩

theorem offsetAfter_append (l : Int) (xs ys : List (Bytes × Int)) :
    offsetAfter l (xs ++ ys) = offsetAfter (offsetAfter l xs) ys := by
  induction xs generalizing l with
  | nil => rfl
  | cons x xs ih => obtain ⟨c, n⟩ := x; simp [offsetAfter, ih]

theorem deltas_append (l : Int) (xs ys : List (Bytes × Int)) (h : inBounds l xs) :
    deltas l (xs ++ ys) = deltas l xs ++ deltas (offsetAfter l xs) ys := by
  induction xs generalizing l with
  | nil => rfl
  | cons x xs ih =>
    obtain ⟨c, n⟩ := x
    obtain ⟨h1, h2⟩ := h
    obtain ⟨s, hs⟩ := Option.isSome_iff_exists.mp h1
    simp [deltas, hs, offsetAfter, ih n h2]

theorem inBounds_append (l : Int) (xs ys : List (Bytes × Int)) (h : inBounds l xs)
    (h2 : inBounds (offsetAfter l xs) ys) : inBounds l (xs ++ ys) := by
  induction xs generalizing l with
  | nil => exact h2
  | cons x xs ih =>
    obtain ⟨c, n⟩ := x
    exact ⟨h.1, ih n h.2 h2⟩

theorem pollOutput_trace (urlParse : String → Except Error String) (c : Client)
    (out : Option String) (l : Int) (tr : Trace) :
    ∃ new, (c.pollOutput urlParse out l tr).2 = tr ++ new ∧
      sent new = deltas l (outputs new) ∧ closes new = 0 ∧ started new = [] ∧ exits new = [] ∧
      (∀ l2, (c.pollOutput urlParse out l tr).1 = .next l2 →
        inBounds l (outputs new) ∧ l2 = offsetAfter l (outputs new) ∧ pollErrors new = []) ∧
      (∀ e, (c.pollOutput urlParse out l tr).1 = .ret e → pollErrors new ≠ []) := by
  unfold Client.pollOutput
  cases out with
  | none =>
    exact ⟨[], by simp, by simp [sent, outputs, deltas], by simp [closes], by simp [started],
      by simp [exits], by
        intro l2 h
        simp at h
        simp [outputs, inBounds, offsetAfter, pollErrors, h], by simp⟩
  | some path =>
    obtain ⟨new, hnew, hfile, herr, hok⟩ := Download_trace urlParse c path tr
    obtain ⟨q1, q2, q3, q4, q5⟩ := fileOps_quiet new hfile
    simp only []
    rcases hd : c.Download urlParse path tr with ⟨res, tr2⟩
    rw [hd] at hnew herr hok
    simp only [] at hnew
    subst hnew
    rcases res with ⟨n, e⟩ | ⟨f, n⟩
    · simp only []
      exact ⟨new, rfl, by simp [q1, q2, deltas], q3, q4, q5, by simp, fun _ _ => herr n e rfl⟩
    · simp only []
      have hpe := hok (f, n) rfl
      cases hs : sliceString (ioCopy f).1 l n with
      | none =>
        refine ⟨new ++ [.copyOutput (ioCopy f).1 n], by simp, ?_, ?_, ?_, ?_, by simp, by simp⟩
        · simp [sent_append, outputs_append, q1, q2, sent, outputs, deltas, hs]
        · simp [closes_append, q3, closes]
        · simp [started_append, q4, started]
        · simp [exits_append, q5, exits]
      | some s =>
        refine ⟨new ++ [.copyOutput (ioCopy f).1 n, .send s], by simp, ?_, ?_, ?_, ?_, ?_, by simp⟩
        · simp [sent_append, outputs_append, q1, q2, sent, outputs, deltas, hs]
        · simp [closes_append, q3, closes]
        · simp [started_append, q4, started]
        · simp [exits_append, q5, exits]
        · intro l2 h
          simp at h
          subst h
          simp [outputs_append, q2, outputs, inBounds, hs, offsetAfter, pollErrors_append, hpe,
            pollErrors]


theorem pollLoop_trace (urlParse : String → Except Error String) (c : Client)
    (out : Option String) (pid : Int) :
    ∀ (fuel : Nat) (l : Int) (tr : Trace) (r : Ctl (Int × Int) × Trace),
      c.pollLoop urlParse out pid fuel l tr = some r →
      ∃ new, r.2 = tr ++ new ∧ sent new = deltas l (outputs new) ∧ closes new = 0 ∧
        started new = [] ∧
        (∀ rc l2, r.1 = .next (rc, l2) →
          inBounds l (outputs new) ∧ l2 = offsetAfter l (outputs new) ∧ exits new = [rc] ∧
            pollErrors new = []) ∧
        (∀ e, r.1 = .ret e → pollErrors new ≠ []) := by
  intro fuel
  induction fuel with
  | zero => intro l tr r h; simp [Client.pollLoop] at h
  | succ fuel ih =>
    intro l tr r h
    unfold Client.pollLoop at h
    simp only [] at h
    cases hp : c.ProcessManager.ListProcesses tr [pid] with
    | error err =>
      rw [hp] at h
      simp only [Option.some.injEq] at h
      subst h
      exact ⟨[.ListProcesses [pid] (.error err)], rfl, by simp [sent, outputs, deltas],
        by simp [closes], by simp [started], by simp, by simp [pollErrors]⟩
    | ok procs =>
      rw [hp] at h
      cases procs with
      | nil =>
        simp only [Option.some.injEq] at h
        subst h
        exact ⟨[.ListProcesses [pid] (.ok [])], rfl, by simp [sent, outputs, deltas],
          by simp [closes], by simp [started], by simp, by simp⟩
      | cons p ps =>
        simp only [] at h
        cases he : p.EndTime with
        | some t =>
          rw [he] at h
          simp only [Option.some.injEq] at h
          subst h
          refine ⟨[.ListProcesses [pid] (.ok (p :: ps))], rfl, by simp [sent, outputs, deltas],
            by simp [closes], by simp [started], ?_, by simp⟩
          intro rc l2 h
          simp at h
          obtain ⟨h1, h2⟩ := h
          subst h1 h2
          simp [outputs, inBounds, offsetAfter, exits, he, pollErrors]
        | none =>
          rw [he] at h
          simp only [] at h
          obtain ⟨new1, hn1, s1, c1, st1, e1, nx1, rt1⟩ := pollOutput_trace urlParse c out l
            (tr ++ [.ListProcesses [pid] (.ok (p :: ps))])
          rcases hq : c.pollOutput urlParse out l (tr ++ [.ListProcesses [pid] (.ok (p :: ps))])
            with ⟨ctl, tr1⟩
          rw [hq] at h hn1 nx1 rt1
          simp only [] at hn1 nx1 rt1
          subst hn1
          have hev : exits [Event.ListProcesses [pid] (Except.ok (p :: ps))] = [] := by
            simp [exits, he]
          cases ctl with
          | ret err =>
            simp only [Option.some.injEq] at h
            subst h
            refine ⟨[.ListProcesses [pid] (.ok (p :: ps))] ++ new1, by simp, ?_, ?_, ?_,
              by simp, ?_⟩
            · simp [sent_append, outputs_append, sent, outputs, s1]
            · simp [closes_append, closes, c1]
            · simp [started_append, started, st1]
            · intro e _
              simpa [pollErrors_append, pollErrors] using rt1 err rfl
          | panic =>
            simp only [Option.some.injEq] at h
            subst h
            refine ⟨[.ListProcesses [pid] (.ok (p :: ps))] ++ new1, by simp, ?_, ?_, ?_,
              by simp, by simp⟩
            · simp [sent_append, outputs_append, sent, outputs, s1]
            · simp [closes_append, closes, c1]
            · simp [started_append, started, st1]
          | next l1 =>
            simp only [] at h
            obtain ⟨b1, o1, pe1⟩ := nx1 l1 rfl
            obtain ⟨new2, hn2, s2, c2, st2, nx2, rt2⟩ := ih l1 _ r h
            refine ⟨[.ListProcesses [pid] (.ok (p :: ps))] ++ new1 ++ new2, by simp [hn2], ?_,
              ?_, ?_, ?_, ?_⟩
            · simp [sent_append, outputs_append, sent, outputs, s1, s2,
                deltas_append l _ _ b1, ← o1]
            · simp [closes_append, closes, c1, c2]
            · simp [started_append, started, st1, st2]
            · intro rc l2 hr
              obtain ⟨b2, o2, e2, pe2⟩ := nx2 rc l2 hr
              refine ⟨?_, ?_, ?_, ?_⟩
              · have ho : outputs ([Event.ListProcesses [pid] (Except.ok (p :: ps))] ++ new1 ++ new2)
                    = outputs new1 ++ outputs new2 := by simp [outputs_append, outputs]
                rw [ho]
                exact inBounds_append l _ _ b1 (o1 ▸ b2)
              · simp [outputs_append, outputs, offsetAfter_append, ← o1, o2]
              · simp [exits_append, exits, he, e1, e2]
              · simp [pollErrors_append, pollErrors, pe1, pe2]
            · intro e hr
              have := rt2 e hr
              simpa [pollErrors_append, pollErrors, pe1] using this

theorem startAndWait_trace (urlParse : String → Except Error String) (c : Client)
    (spec : GuestProgramSpec) (name : String) (out : Option String) (fuel : Nat) (tr : Trace)
    (r : Outcome × Trace) (h : c.startAndWait urlParse spec name out fuel tr = some r) :
    ∃ new, r.2 = tr ++ new ∧ sent new = deltas 0 (outputs new) ∧ closes new = 0 ∧
      started new = [spec] ∧
      (∀ rc ∈ exits new, pollErrors new = [] →
        r.1 = .panicked ∨ r.1 = .returned (exitResult name rc)) := by
  unfold Client.startAndWait at h
  simp only [] at h
  cases hs : c.ProcessManager.StartProgram tr spec with
  | error err =>
    rw [hs] at h
    simp only [Option.some.injEq] at h
    subst h
    exact ⟨[.StartProgram spec (.error err)], rfl, by simp [sent, outputs, deltas],
      by simp [closes], by simp [started], by simp [exits]⟩
  | ok pid =>
    rw [hs] at h
    simp only [] at h
    cases hl : c.pollLoop urlParse out pid fuel 0 (tr ++ [.StartProgram spec (.ok pid)]) with
    | none => rw [hl] at h; simp at h
    | some x =>
      rw [hl] at h
      obtain ⟨new1, hn1, s1, c1, st1, nx1, rt1⟩ := pollLoop_trace urlParse c out pid fuel 0 _ x hl
      obtain ⟨ctl, tr1⟩ := x
      simp only [] at hn1 nx1 rt1
      subst hn1
      cases ctl with
      | ret err =>
        simp only [Option.some.injEq] at h
        subst h
        refine ⟨[.StartProgram spec (.ok pid)] ++ new1, by simp, ?_, ?_, ?_, ?_⟩
        · simp [sent_append, outputs_append, sent, outputs, s1]
        · simp [closes_append, closes, c1]
        · simp [started_append, started, st1]
        · intro rc _ hpe
          exact absurd (by simpa [pollErrors_append, pollErrors] using hpe) (rt1 err rfl)
      | panic =>
        simp only [Option.some.injEq] at h
        subst h
        refine ⟨[.StartProgram spec (.ok pid)] ++ new1, by simp, ?_, ?_, ?_, ?_⟩
        · simp [sent_append, outputs_append, sent, outputs, s1]
        · simp [closes_append, closes, c1]
        · simp [started_append, started, st1]
        · intro rc _ _
          exact Or.inl rfl
      | next a =>
        obtain ⟨rc, l⟩ := a
        simp only [] at h
        obtain ⟨b1, o1, e1, pe1⟩ := nx1 rc l rfl
        obtain ⟨new2, hn2, s2, c2, st2, e2, nx2, rt2⟩ := pollOutput_trace urlParse c out l
          (tr ++ [.StartProgram spec (.ok pid)] ++ new1)
        rcases hq : c.pollOutput urlParse out l (tr ++ [.StartProgram spec (.ok pid)] ++ new1)
          with ⟨ctl, tr2⟩
        rw [hq] at h hn2 nx2 rt2
        simp only [] at hn2 nx2 rt2
        subst hn2
        have hsent : sent ([Event.StartProgram spec (.ok pid)] ++ new1 ++ new2) =
            deltas 0 (outputs ([Event.StartProgram spec (.ok pid)] ++ new1 ++ new2)) := by
          simp [sent_append, outputs_append, sent, outputs, s1, s2, deltas_append 0 _ _ b1, ← o1]
        have hcl : closes ([Event.StartProgram spec (.ok pid)] ++ new1 ++ new2) = 0 := by
          simp [closes_append, closes, c1, c2]
        have hst : started ([Event.StartProgram spec (.ok pid)] ++ new1 ++ new2) = [spec] := by
          simp [started_append, started, st1, st2]
        have hex : exits ([Event.StartProgram spec (.ok pid)] ++ new1 ++ new2) = [rc] := by
          simp [exits_append, exits, e1, e2]
        cases ctl with
        | ret err =>
          simp only [Option.some.injEq] at h
          subst h
          refine ⟨_, (List.append_assoc _ _ _).trans (List.append_assoc _ _ _) |>.symm ▸ rfl,
            hsent, hcl, hst, ?_⟩
          intro rc2 _ hpe
          exact absurd (by simpa [pollErrors_append, pollErrors, pe1] using hpe) (rt2 err rfl)
        | panic =>
          simp only [Option.some.injEq] at h
          subst h
          exact ⟨_, (List.append_assoc _ _ _).trans (List.append_assoc _ _ _) |>.symm ▸ rfl,
            hsent, hcl, hst, fun _ _ _ => Or.inl rfl⟩
        | next l2 =>
          simp only [] at h
          refine ⟨[Event.StartProgram spec (.ok pid)] ++ new1 ++ new2, ?_, hsent, hcl, hst, ?_⟩
          · split at h <;> (simp only [Option.some.injEq] at h; subst h; simp)
          · intro rc2 hrc2 _
            rw [hex] at hrc2
            simp at hrc2
            subst hrc2
            right
            unfold exitResult
            split at h <;> (simp only [Option.some.injEq] at h; subst h; simp_all)

theorem transfer_trace (c : Client) (src : Reader) (dst : String) (p : SoapUpload) (force : Bool)
    (tr : Trace) :
    ∃ new, (c.transfer src dst p force tr).2 = tr ++ new ∧ (∀ ev ∈ new, ev.isFileOp = true) := by
  unfold Client.transfer
  simp only []
  cases h1 : c.FileManager.InitiateFileTransferToGuest tr dst p.ContentLength force with
  | error e =>
    exact ⟨[.InitiateFileTransferToGuest dst p.ContentLength force (.error e)], by simp,
      by simp [Event.isFileOp]⟩
  | ok url =>
    simp only []
    cases h2 : c.FileManager.TransferURL
        (tr ++ [.InitiateFileTransferToGuest dst p.ContentLength force (.ok url)]) url with
    | error e =>
      exact ⟨[.InitiateFileTransferToGuest dst p.ContentLength force (.ok url),
        .TransferURL url (.error e)], by simp, by simp [Event.isFileOp]⟩
    | ok u =>
      exact ⟨[.InitiateFileTransferToGuest dst p.ContentLength force (.ok url),
        .TransferURL url (.ok u), .Upload src u p (c.ProcessManager.Client.Upload
          (tr ++ [.InitiateFileTransferToGuest dst p.ContentLength force (.ok url)] ++
            [.TransferURL url (.ok u)]) src u p)], by simp, by simp [Event.isFileOp]⟩

theorem Upload_trace (c : Client) (src : Reader) (dst : String) (p : SoapUpload) (force : Bool)
    (tr : Trace) :
    ∃ new, (c.Upload src dst p force tr).2 = tr ++ new ∧ (∀ ev ∈ new, ev.isFileOp = true) := by
  unfold Client.Upload
  split
  · split
    · exact ⟨[], by simp, by simp⟩
    · simp only []
      split
      · split
        · exact ⟨[_], rfl, by simp [Event.isFileOp]⟩
        · rename_i len _ _ _ _
          obtain ⟨new, h1, h2⟩ := transfer_trace c (.bytesBuffer src.copy.1) dst
            { p with ContentLength := (src.copy.1.length : Int) } force
            (tr ++ [.copySource src src.copy.1 src.copy.2])
          refine ⟨[.copySource src src.copy.1 src.copy.2] ++ new, ?_, ?_⟩
          · rw [h1]; simp
          · intro ev hev
            simp only [List.mem_append, List.mem_singleton] at hev
            rcases hev with rfl | hev
            · rfl
            · exact h2 ev hev
      · exact transfer_trace c src dst _ force tr
  · exact transfer_trace c src dst p force tr

theorem deferred_eq_some (d : Trace → Trace) (x : Option (Outcome × Trace)) (r : Outcome × Trace)
    (h : deferred d x = some r) : ∃ r0, x = some r0 ∧ r = (r0.1, d r0.2) := by
  cases x with
  | none => simp [deferred] at h
  | some r0 => exact ⟨r0, rfl, by simpa [deferred] using h.symm⟩

theorem silent_fileOps (t : Trace) (h : ∀ ev ∈ t, ev.isFileOp = true) : silent t :=
  let q := fileOps_quiet t h
  ⟨q.1, q.2.1, q.2.2.2.2⟩

theorem silent_append (a b : Trace) (ha : silent a) (hb : silent b) : silent (a ++ b) := by
  obtain ⟨a1, a2, a3⟩ := ha
  obtain ⟨b1, b2, b3⟩ := hb
  exact ⟨by simp [sent_append, a1, b1], by simp [outputs_append, a2, b2],
    by simp [exits_append, a3, b3]⟩

theorem silent_close : silent [Event.close] := ⟨rfl, rfl, rfl⟩

theorem silent_DeleteFile (path : String) (res : Option Error) :
    silent [Event.DeleteFile path res] := ⟨rfl, rfl, rfl⟩

theorem silent_CreateTemporaryFile (a b d : String) (res : Except Error String) :
    silent [Event.CreateTemporaryFile a b d res] := ⟨rfl, rfl, rfl⟩

theorem silent_nil : silent [] := ⟨rfl, rfl, rfl⟩

theorem RunInv_silent (t : Trace) (o : Outcome) (h : silent t) : RunInv t o := by
  obtain ⟨h1, h2, h3⟩ := h
  exact ⟨by simp [h1, h2, deltas], by simp [h3]⟩

theorem RunInv_wrap (a new b : Trace) (o : Outcome) (ha : silent a) (hb : silent b)
    (h : RunInv new o) : RunInv (a ++ new ++ b) o := by
  obtain ⟨a1, a2, a3⟩ := ha
  obtain ⟨b1, b2, b3⟩ := hb
  obtain ⟨h1, h2⟩ := h
  refine ⟨by simp [sent_append, outputs_append, a1, a2, b1, b2, h1], ?_⟩
  intro rc hrc hpe
  simp only [exits_append, a3, b3, List.nil_append, List.append_nil] at hrc
  simp only [pollErrors_append, List.append_eq_nil] at hpe
  exact h2 rc hrc hpe.1.2

theorem RunInv_startAndWait (urlParse : String → Except Error String) (c : Client)
    (spec : GuestProgramSpec) (name : String) (out : Option String) (fuel : Nat) (tr : Trace)
    (r : Outcome × Trace) (h : c.startAndWait urlParse spec name out fuel tr = some r) :
    ∃ new, r.2 = tr ++ new ∧ RunInv new r.1 := by
  obtain ⟨new, h1, h2, _, _, h5⟩ := startAndWait_trace urlParse c spec name out fuel tr r h
  refine ⟨new, h1, h2, fun rc hrc hpe => ?_⟩
  rcases h5 rc hrc hpe with h | h
  · exact Or.inl h
  · exact Or.inr ⟨name, h⟩

/-- A run wrapped in a scratch file: `mktemp`, the run, and the deferred `rm`. -/
theorem RunInv_withTemp (c : Client) (pfx sfx dir : String) (tr : Trace)
    (body : String → Trace → Option (Outcome × Trace)) (r : Outcome × Trace)
    (hbody : ∀ dst t r1, body dst t = some r1 → ∃ new, r1.2 = t ++ new ∧ RunInv new r1.1)
    (h : (match c.createTemporaryFile pfx sfx dir tr with
      | (.error err, tr) => some (.returned (some err), tr)
      | (.ok dst, tr) => deferred (c.rm dst) (body dst tr)) = some r) :
    ∃ new, r.2 = tr ++ new ∧ RunInv new r.1 := by
  unfold Client.createTemporaryFile at h
  simp only [] at h
  cases hc : c.FileManager.CreateTemporaryFile tr pfx sfx dir with
  | error err =>
    rw [hc] at h
    simp only [Option.some.injEq] at h
    subst h
    exact ⟨[.CreateTemporaryFile pfx sfx dir (.error err)], rfl,
      RunInv_silent _ _ (silent_CreateTemporaryFile _ _ _ _)⟩
  | ok dst =>
    rw [hc] at h
    simp only [] at h
    obtain ⟨r1, h1, h2⟩ := deferred_eq_some _ _ _ h
    obtain ⟨new, hn, hinv⟩ := hbody dst _ r1 h1
    subst h2
    refine ⟨[.CreateTemporaryFile pfx sfx dir (.ok dst)] ++ new ++
      [.DeleteFile dst (c.FileManager.DeleteFile r1.2 dst)], ?_, ?_⟩
    · simp [Client.rm, hn]
    · exact RunInv_wrap _ _ _ _ (silent_CreateTemporaryFile _ _ _ _) (silent_DeleteFile _ _) hinv

/-- A run with `defer close(data)`. -/
theorem RunInv_withClose (tr : Trace) (x : Option (Outcome × Trace)) (r : Outcome × Trace)
    (hx : ∀ r1, x = some r1 → ∃ new, r1.2 = tr ++ new ∧ RunInv new r1.1)
    (h : deferred (fun tr => tr ++ [Event.close]) x = some r) :
    ∃ new, r.2 = tr ++ new ∧ RunInv new r.1 := by
  obtain ⟨r1, h1, h2⟩ := deferred_eq_some _ _ _ h
  obtain ⟨new, hn, hinv⟩ := hx r1 h1
  subst h2
  refine ⟨new ++ [.close], by simp [hn], ?_⟩
  simpa using RunInv_wrap [] new [.close] r1.1 silent_nil silent_close hinv

theorem RunInv_RunCommands (urlParse : String → Except Error String) (c : Client)
    (commands : List String) (fuel : Nat) (tr : Trace) (r : Outcome × Trace)
    (h : c.RunCommands urlParse commands fuel tr = some r) :
    ∃ new, r.2 = tr ++ new ∧ RunInv new r.1 := by
  unfold Client.RunCommands Client.mktemp at h
  refine RunInv_withClose tr _ r (fun r1 h1 => ?_) h
  exact RunInv_withTemp c _ _ _ tr
    (fun dst t => c.startAndWait urlParse (batchSpec c.GuestFamily (join commands ";") dst)
      (batchSpec c.GuestFamily (join commands ";") dst).ProgramPath (some dst) fuel t) r1
    (fun dst t r2 h2 => RunInv_startAndWait urlParse c _ _ _ fuel t r2 h2) h1

theorem RunInv_RunCommand (urlParse : String → Except Error String) (c : Client)
    (command : String) (fuel : Nat) (tr : Trace) (r : Outcome × Trace)
    (h : c.RunCommand urlParse command fuel tr = some r) :
    ∃ new, r.2 = tr ++ new ∧ RunInv new r.1 := by
  unfold Client.RunCommand Client.mktemp at h
  exact RunInv_withTemp c _ _ _ tr
    (fun dst t => c.startAndWait urlParse (batchSpec c.GuestFamily command dst)
      (batchSpec c.GuestFamily command dst).ProgramPath (some dst) fuel t) r
    (fun dst t r2 h2 => RunInv_startAndWait urlParse c _ _ _ fuel t r2 h2) h

theorem RunInv_RunSimpleCommands (urlParse : String → Except Error String) (c : Client)
    (commands : List String) (fuel : Nat) (tr : Trace) (r : Outcome × Trace)
    (h : c.RunSimpleCommands urlParse commands fuel tr = some r) :
    ∃ new, r.2 = tr ++ new ∧ RunInv new r.1 := by
  unfold Client.RunSimpleCommands Client.mktemp at h
  exact RunInv_withTemp c _ _ _ tr
    (fun dst t => c.startAndWait urlParse (batchSpec c.GuestFamily (join commands ";") dst)
      (batchSpec c.GuestFamily (join commands ";") dst).ProgramPath none fuel t) r
    (fun dst t r2 h2 => RunInv_startAndWait urlParse c _ _ _ fuel t r2 h2) h

theorem RunInv_Run (urlParse : String → Except Error String) (c : Client)
    (cmd : Cmd) (fuel : Nat) (tr : Trace) (r : Outcome × Trace)
    (h : c.Run urlParse cmd fuel tr = some r) :
    ∃ new, r.2 = tr ++ new ∧ RunInv new r.1 := by
  unfold Client.Run Client.mktemp at h
  refine RunInv_withClose tr _ r (fun r1 h1 => ?_) h
  cases hs : cmd.Stdout with
  | none =>
    rw [hs] at h1
    exact RunInv_startAndWait urlParse c _ _ _ fuel tr r1 h1
  | some w =>
    rw [hs] at h1
    exact RunInv_withTemp c _ _ _ tr
      (fun dst t => c.startAndWait urlParse
        (Run.spec c.GuestFamily cmd (cmd.Args ++ ["| Out-File ", dst, " -encoding ASCII"]))
        cmd.Path (some dst) fuel t) r1
      (fun dst t r2 h2 => RunInv_startAndWait urlParse c _ _ _ fuel t r2 h2) h1

theorem RunInv_RunScript (urlParse : String → Except Error String) (c : Client)
    (script : Bytes) (fuel : Nat) (tr : Trace) (r : Outcome × Trace)
    (h : c.RunScript urlParse script fuel tr = some r) :
    ∃ new, r.2 = tr ++ new ∧ RunInv new r.1 := by
  unfold Client.RunScript Client.mktemp at h
  refine RunInv_withClose tr _ r (fun r1 h1 => ?_) h
  refine RunInv_withTemp c _ _ _ tr
    (fun execfile t =>
      match c.Upload (.stringsReader script) execfile DefaultUpload true t with
      | (some err, tr) => some (.returned (some err), tr)
      | (none, tr) =>
        match c.createTemporaryFile "govmomi-" "" "" tr with
        | (.error err, tr) => some (.returned (some err), tr)
        | (.ok outFile, tr) =>
          deferred (c.rm outFile) <|
            if c.GuestFamily = VirtualMachineGuestOsFamilyWindowsGuest then
              c.startAndWait urlParse
                { ProgramPath := powershell
                  Arguments := join [execfile, "| Out-File", outFile, "-encoding ASCII"] " "
                  WorkingDirectory := ""
                  EnvVariables := [] }
                powershell (some outFile) fuel tr
            else
              some (.returned (some (.Errorf "not a windows system")), tr)) r1 ?_ h1
  intro execfile t r2 h2
  obtain ⟨newU, hU, hfile⟩ := Upload_trace c (.stringsReader script) execfile DefaultUpload true t
  rcases hu : c.Upload (.stringsReader script) execfile DefaultUpload true t with ⟨res, tu⟩
  beta_reduce at h2
  rw [hu] at h2 hU
  simp only [] at hU
  subst hU
  cases res with
  | some err =>
    simp only [Option.some.injEq] at h2
    subst h2
    exact ⟨newU, rfl, RunInv_silent _ _ (silent_fileOps _ hfile)⟩
  | none =>
    simp only [] at h2
    obtain ⟨new, hn, hinv⟩ := RunInv_withTemp c _ _ _ (t ++ newU)
      (fun outFile tr =>
        if c.GuestFamily = VirtualMachineGuestOsFamilyWindowsGuest then
          c.startAndWait urlParse
            { ProgramPath := powershell
              Arguments := join [execfile, "| Out-File", outFile, "-encoding ASCII"] " "
              WorkingDirectory := ""
              EnvVariables := [] }
            powershell (some outFile) fuel tr
        else
          some (.returned (some (.Errorf "not a windows system")), tr)) r2
      (fun outFile t3 r3 h3 => by
        simp only [] at h3
        split at h3
        · exact RunInv_startAndWait urlParse c _ _ _ fuel t3 r3 h3
        · simp only [Option.some.injEq] at h3
          subst h3
          exact ⟨[], by simp, RunInv_silent _ _ silent_nil⟩) h2
    refine ⟨newU ++ new, by simp [hn], ?_⟩
    simpa using RunInv_wrap newU new [] r2.1 (silent_fileOps _ hfile) silent_nil hinv

theorem RunInv_invoke (urlParse : String → Except Error String) (c : Client)
    (inv : Invocation) (fuel : Nat) (r : Outcome × Trace)
    (h : c.invoke urlParse inv fuel = some r) : RunInv r.2 r.1 := by
  cases inv with
  | Run cmd =>
    obtain ⟨new, h1, h2⟩ := RunInv_Run urlParse c cmd fuel [] r h
    simpa [h1] using h2
  | RunCommands commands =>
    obtain ⟨new, h1, h2⟩ := RunInv_RunCommands urlParse c commands fuel [] r h
    simpa [h1] using h2
  | RunCommand command =>
    obtain ⟨new, h1, h2⟩ := RunInv_RunCommand urlParse c command fuel [] r h
    simpa [h1] using h2
  | RunSimpleCommands commands =>
    obtain ⟨new, h1, h2⟩ := RunInv_RunSimpleCommands urlParse c commands fuel [] r h
    simpa [h1] using h2
  | RunScript script =>
    obtain ⟨new, h1, h2⟩ := RunInv_RunScript urlParse c script fuel [] r h
    simpa [h1] using h2

theorem sliceString_full (c : Bytes) (p : Bytes) (h : p <+: c) :
    sliceString c p.length c.length = some (c.drop p.length) := by
  have hle : p.length ≤ c.length := h.length_le
  unfold sliceString
  rw [if_pos ⟨by omega, by omega, le_refl _⟩]
  simp

theorem deltas_join (content : Bytes) (n : Int) :
    ∀ (xs : List (Bytes × Int)) (p : Bytes), growing xs →
      (∀ x ∈ xs.head?, p <+: x.1) → xs.getLast? = some (content, n) →
      p ++ (deltas p.length xs).flatten = content := by
  intro xs
  induction xs with
  | nil => intro p _ _ h; simp at h
  | cons x rest ih =>
    intro p hg hp hl
    obtain ⟨c1, n1⟩ := x
    have hpc : p <+: c1 := hp (c1, n1) (by simp)
    cases rest with
    | nil =>
      simp only [growing] at hg
      simp only [List.getLast?_singleton, Option.some.injEq, Prod.mk.injEq] at hl
      obtain ⟨rfl, rfl⟩ := hl
      subst hg
      simp only [deltas, sliceString_full c1 p hpc, List.flatten, List.append_nil]
      obtain ⟨t, rfl⟩ := hpc
      simp
    | cons y rest2 =>
      obtain ⟨c2, n2⟩ := y
      simp only [growing] at hg
      obtain ⟨hn, hpre, hg2⟩ := hg
      subst hn
      have hl2 : ((c2, n2) :: rest2).getLast? = some (content, n) := by
        simpa [List.getLast?_cons_cons] using hl
      have := ih c1 hg2 (by simpa using hpre) hl2
      simp only [deltas, sliceString_full c1 p hpc, List.flatten]
      rw [← List.append_assoc]
      have hc : p ++ List.drop p.length c1 = c1 := by
        obtain ⟨t, rfl⟩ := hpc
        simp
      rw [hc]
      exact this

end Toolbox

/-! # Specification theorems -/

namespace Toolbox

/-- C1: in every successful streaming run (`Run`, `RunCommands`, `RunCommand`,
`RunScript`) in which the output file only grows between polls and every download
reports the byte length of what it delivered, the strings sent on the data channel,
concatenated in order, are exactly the content of the final download. -/
theorem C1_chunks_reproduce_output (urlParse : String → Except Error String) (c : Client)
    (inv : Invocation) (fuel : Nat) (tr : Trace) (content : Bytes) (n : Int)
    (_hs : inv.streaming = true)
    (h : c.invoke urlParse inv fuel = some (.returned none, tr))
    (hg : growing (outputs tr))
    (hl : (outputs tr).getLast? = some (content, n)) :
    (sent tr).flatten = content := by
  obtain ⟨h1, _⟩ := RunInv_invoke urlParse c inv fuel _ h
  simp only [] at h1
  rw [h1]
  simpa using deltas_join content n (outputs tr) [] hg (by simp) hl

theorem C1_chunks_reproduce_output_witness :
    (sent (traceOf idleRun)).flatten = [104, 105, 13, 10] :=
  C1_chunks_reproduce_output parsePlain idleGuest (.RunCommands ["echo hi"]) 5 (traceOf idleRun)
    [104, 105, 13, 10] 4 rfl (by decide)
    (by
      have ho : outputs (traceOf idleRun) =
          [([104, 105], 2), ([104, 105], 2), ([104, 105, 13, 10], 4)] := by decide
      rw [ho]
      simp [growing])
    (by decide)

/-- C2: when a run method returns and the process was reported ended with exit code
`rc` while no status query and no download failed, the returned error is an
`exitError` if and only if `rc` is not 0, its `ExitCode()` is then `rc`, and the
error is `nil` when `rc` is 0. -/
theorem C2_exit_error_iff_nonzero (urlParse : String → Except Error String) (c : Client)
    (inv : Invocation) (fuel : Nat) (tr : Trace) (e : Option Error) (rc : Int)
    (h : c.invoke urlParse inv fuel = some (.returned e, tr))
    (hok : pollErrors tr = [])
    (hrc : rc ∈ exits tr) :
    (e = none ↔ rc = 0) ∧
      ((∃ err, e = some err ∧ err.isExitError = true) ↔ rc ≠ 0) ∧
      ((∃ err, e = some err ∧ err.isExitError = true ∧ err.ExitCode = some rc) ↔ rc ≠ 0) := by
  obtain ⟨_, h2⟩ := RunInv_invoke urlParse c inv fuel _ h
  rcases h2 rc hrc hok with h3 | ⟨name, h3⟩
  · simp at h3
  · simp only [Outcome.returned.injEq] at h3
    subst h3
    by_cases hz : rc = 0
    · subst hz
      simp [exitResult]
    · simp [exitResult, hz, newExitError, Error.isExitError, Error.ExitCode]

theorem C2_exit_error_iff_nonzero_witness :
    (some (newExitError powershell 3) = none ↔ (3 : Int) = 0) ∧
      ((∃ err, some (newExitError powershell 3) = some err ∧ err.isExitError = true) ↔
        (3 : Int) ≠ 0) ∧
      ((∃ err, some (newExitError powershell 3) = some err ∧ err.isExitError = true ∧
        err.ExitCode = some 3) ↔ (3 : Int) ≠ 0) :=
  C2_exit_error_iff_nonzero parsePlain failingGuest (.RunScript [101, 120, 105, 116, 32, 51]) 5
    (traceOf failingRun) (some (newExitError powershell 3)) 3 (by decide) (by decide) (by decide)

/-- C3 (code evaluated at the failing input): on the same guest `RunCommands` closes
the data channel once, after its last send, while `RunCommand` returns `nil` without
ever closing it. -/
theorem C3_RunCommand_leaves_channel_open :
    (idleRun.map fun r => (r.1, closes r.2, r.2.getLast?)) =
        some (.returned none, 1, some .close) ∧
      ((idleGuest.invoke parsePlain (.RunCommand "echo hi") 5).map fun r =>
        (r.1, closes r.2, sent r.2)) =
        some (.returned none, 0, [[104, 105], [], [13, 10]]) := by
  decide

/-- C4 (counterexample): in the run on `idleGuest` the second download has the
length of the recorded offset, and an empty string is sent for it. -/
theorem C4_empty_chunk_is_sent :
    outputs (traceOf idleRun) = [([104, 105], 2), ([104, 105], 2), ([104, 105, 13, 10], 4)] ∧
      sent (traceOf idleRun) = [[104, 105], [], [13, 10]] ∧
      ¬ ∀ s ∈ sent (traceOf idleRun), s ≠ [] := by
  decide

/-- C4 (amended): a run method sends one string for every download, the slice from
the recorded offset to the reported length, whether it is empty or not; for a
download whose reported length `l` equals the recorded offset the string sent is the
empty string. -/
theorem C4_every_download_sends_its_delta (urlParse : String → Except Error String) (c : Client)
    (inv : Invocation) (fuel : Nat) (o : Outcome) (tr : Trace)
    (l : Int) (content : Bytes) (rest : List (Bytes × Int))
    (h : c.invoke urlParse inv fuel = some (o, tr)) (h0 : 0 ≤ l) (h1 : l ≤ content.length) :
    sent tr = deltas 0 (outputs tr) ∧
      deltas l ((content, l) :: rest) = [] :: deltas l rest := by
  refine ⟨(RunInv_invoke urlParse c inv fuel _ h).1, ?_⟩
  have hs : sliceString content l l = some [] := by
    unfold sliceString
    rw [if_pos ⟨h0, le_refl _, h1⟩]
    simp
  rw [deltas, hs]

theorem C4_every_download_sends_its_delta_witness :
    sent (traceOf idleRun) = deltas 0 (outputs (traceOf idleRun)) ∧
      deltas 2 (([104, 105], 2) :: [([104, 105, 13, 10], 4)]) =
        [] :: deltas 2 [([104, 105, 13, 10], 4)] :=
  C4_every_download_sends_its_delta parsePlain idleGuest (.RunCommands ["echo hi"]) 5
    (.returned none) (traceOf idleRun) 2 [104, 105] [([104, 105, 13, 10], 4)]
    (by decide) (by decide) (by decide)

/-- C5 (code evaluated at the failing input): on a Linux guest `RunCommands`,
`RunCommand` and `RunSimpleCommands` call `StartProgram` with an empty program path
and return `nil`. -/
theorem C5_batch_starts_program_on_linux :
    ((linuxGuest.invoke parsePlain (.RunCommands ["ls"]) 5).map fun r => (r.1, started r.2)) =
        some (.returned none,
          [{ ProgramPath := "", Arguments := "", WorkingDirectory := "", EnvVariables := [] }]) ∧
      ((linuxGuest.invoke parsePlain (.RunCommand "ls") 5).map fun r => (r.1, started r.2)) =
        some (.returned none,
          [{ ProgramPath := "", Arguments := "", WorkingDirectory := "", EnvVariables := [] }]) ∧
      ((linuxGuest.invoke parsePlain (.RunSimpleCommands ["ls"]) 5).map fun r =>
        (r.1, started r.2)) =
        some (.returned none,
          [{ ProgramPath := "", Arguments := "", WorkingDirectory := "", EnvVariables := [] }]) := by
  decide

/-- C6 (counterexample): on a Linux guest `RunScript` returns its error only after
it has created two temporary files and uploaded the script. -/
theorem C6_RunScript_creates_files_first :
    ((linuxGuest.invoke parsePlain (.RunScript [108, 115]) 5).map fun r =>
      (r.1, temps r.2, transferred r.2, started r.2)) =
      some (.returned (some (.Errorf "not a windows system")), 2,
        [(.stringsReader [108, 115], 2)], []) := by
  decide

/-- C6 (amended): on a guest that is not of the Windows family `RunScript` returns
a non-nil error, whatever the script and the answers of the guest, and it never
calls `StartProgram`. -/
theorem C6_RunScript_fails_without_start (urlParse : String → Except Error String) (c : Client)
    (script : Bytes) (fuel : Nat)
    (hf : c.GuestFamily ≠ VirtualMachineGuestOsFamilyWindowsGuest) :
    ∃ err tr, c.invoke urlParse (.RunScript script) fuel = some (.returned (some err), tr) ∧
      started tr = [] := by
  simp only [Client.invoke, Client.RunScript, Client.mktemp, Client.createTemporaryFile]
  cases h1 : c.FileManager.CreateTemporaryFile [] "govmomi-" ".ps1" "" with
  | error err => exact ⟨err, _, rfl, by simp [started]⟩
  | ok execfile =>
    simp only []
    obtain ⟨newU, hU, hfile⟩ := Upload_trace c (.stringsReader script) execfile DefaultUpload true
      ([] ++ [Event.CreateTemporaryFile "govmomi-" ".ps1" "" (Except.ok execfile)])
    rcases hu : c.Upload (.stringsReader script) execfile DefaultUpload true
      ([] ++ [Event.CreateTemporaryFile "govmomi-" ".ps1" "" (Except.ok execfile)]) with ⟨res, tu⟩
    rw [hu] at hU
    simp only [] at hU
    subst hU
    have hq := (fileOps_quiet newU hfile).2.2.2.1
    cases res with
    | some err =>
      exact ⟨err, _, rfl, by simp [started_append, started, hq, Client.rm]⟩
    | none =>
      simp only []
      cases h2 : c.FileManager.CreateTemporaryFile
          ([] ++ [Event.CreateTemporaryFile "govmomi-" ".ps1" "" (Except.ok execfile)] ++ newU)
          "govmomi-" "" "" with
      | error err =>
        exact ⟨err, _, rfl, by simp [started_append, started, hq, Client.rm]⟩
      | ok outFile =>
        simp only [if_neg hf]
        exact ⟨_, _, rfl, by simp [started_append, started, hq, Client.rm]⟩

theorem C6_RunScript_fails_without_start_witness :
    ∃ err tr, linuxGuest.invoke parsePlain (.RunScript [108, 115]) 5 =
      some (.returned (some err), tr) ∧ started tr = [] :=
  C6_RunScript_fails_without_start parsePlain linuxGuest [108, 115] 5 (by decide)

theorem trailer_iff (ch : Bytes) :
    gzipHeader <:+ ch ↔
      (ch.length ≥ gzipHeaderLen ∧ subslice ch (ch.length - gzipHeaderLen) ch.length = gzipHeader) := by
  unfold subslice gzipHeaderLen
  rw [List.take_length]
  constructor
  · intro h
    refine ⟨h.length_le, ?_⟩
    exact (List.suffix_iff_eq_drop.mp h).symm
  · rintro ⟨_, h⟩
    exact List.suffix_iff_eq_drop.mpr h.symm

theorem result_of_no_trailer (ch : Bytes) (e : Option Error) (h : ¬ gzipHeader <:+ ch) :
    archiveReader.result (ch, e) = (ch, e) := by
  rw [trailer_iff] at h
  unfold archiveReader.result archiveReader.Read
  simp only []
  by_cases h1 : ch.length ≥ gzipHeaderLen
  · have h2 : ¬ subslice ch (ch.length - gzipHeaderLen) ch.length = gzipHeader :=
      fun h2 => h ⟨h1, h2⟩
    simp [h1, h2]
  · simp [h1]

theorem result_of_trailer (ch : Bytes) (e : Option Error) (h : gzipHeader <:+ ch) :
    archiveReader.result (ch, e) = (ch.take (ch.length - 3), some .EOF) := by
  rw [trailer_iff] at h
  obtain ⟨h1, h2⟩ := h
  unfold archiveReader.result archiveReader.Read
  simp only []
  rw [if_pos h1, if_pos h2]
  rfl

theorem ioCopy_append_ok (pre : List Bytes) (rest : ReadScript) :
    ioCopy (pre.map (fun ch => (ch, none)) ++ rest) =
      (pre.flatten ++ (ioCopy rest).1, (ioCopy rest).2) := by
  induction pre with
  | nil => simp
  | cons ch pre ih => simp [ioCopy, ih]

theorem archiveReader_of_no_trailer (f : ReadScript) (h : ∀ r ∈ f, ¬ gzipHeader <:+ r.1) :
    archiveReader f = f := by
  unfold archiveReader
  induction f with
  | nil => rfl
  | cons r f ih =>
    obtain ⟨ch, e⟩ := r
    simp only [List.map_cons]
    rw [result_of_no_trailer ch e (h (ch, e) (by simp)), ih (fun r hr => h r (by simp [hr]))]

theorem ioCopy_cons_fst (ch : Bytes) (e : Option Error) (post : ReadScript)
    (h : e = none → (ioCopy post).1 = []) : (ioCopy ((ch, e) :: post)).1 = ch := by
  cases e with
  | none => simp [ioCopy, h rfl]
  | some e => cases e <;> simp [ioCopy]

/-- C7 (counterexample): a signature that arrives split over two reads is not
removed, and a read that ends with the signature in mid-stream ends the delivery. -/
theorem C7_trailer_split_or_early :
    (delivered [([1, 0x1f], none), ([0x8b, 0x08], some .EOF)] = [1, 0x1f, 0x8b, 0x08] ∧
      delivered (archiveReader [([1, 0x1f], none), ([0x8b, 0x08], some .EOF)]) =
        [1, 0x1f, 0x8b, 0x08]) ∧
      (delivered [([0x1f, 0x8b, 0x08], none), ([5], some .EOF)] = [0x1f, 0x8b, 0x08, 5] ∧
        delivered (archiveReader [([0x1f, 0x8b, 0x08], none), ([5], some .EOF)]) = []) := by
  decide

/-- C7 (amended): let the underlying reader deliver the chunks `pre` without error,
none of them ending with the signature, then `last`, then `post`. If `last` ends with
the signature and is the last read that delivers data, the archive reader delivers
the raw stream without its last 3 bytes; if neither `last` nor any later read ends
with the signature, it delivers the raw stream unchanged. -/
theorem C7_archive_stream (pre : List Bytes) (last : Bytes) (e : Option Error)
    (post : ReadScript)
    (hpre : ∀ ch ∈ pre, ¬ gzipHeader <:+ ch)
    (hpost : if gzipHeader <:+ last then e = none → delivered post = []
      else ∀ r ∈ post, ¬ gzipHeader <:+ r.1) :
    delivered (archiveReader (pre.map (fun ch => (ch, none)) ++ (last, e) :: post)) =
      if gzipHeader <:+ last then
        (delivered (pre.map (fun ch => (ch, none)) ++ (last, e) :: post)).take
          ((delivered (pre.map (fun ch => (ch, none)) ++ (last, e) :: post)).length - 3)
      else delivered (pre.map (fun ch => (ch, none)) ++ (last, e) :: post) := by
  have hpre2 : ∀ r ∈ pre.map (fun ch => ((ch, none) : Bytes × Option Error)),
      ¬ gzipHeader <:+ r.1 := by
    intro r hr
    obtain ⟨ch, hch, rfl⟩ := List.mem_map.mp hr
    exact hpre ch hch
  by_cases ht : gzipHeader <:+ last
  · rw [if_pos ht] at hpost
    rw [if_pos ht]
    have hlen : 3 ≤ last.length := ht.length_le
    have ha : archiveReader (pre.map (fun ch => (ch, none)) ++ (last, e) :: post) =
        pre.map (fun ch => (ch, none)) ++
          (last.take (last.length - 3), some .EOF) :: archiveReader post := by
      have := archiveReader_of_no_trailer _ hpre2
      unfold archiveReader at this ⊢
      rw [List.map_append, this, List.map_cons, result_of_trailer last e ht]
    unfold delivered at hpost ⊢
    rw [ha, ioCopy_append_ok, ioCopy_append_ok, ioCopy_cons_fst last e post hpost]
    simp only [ioCopy]
    rw [List.length_append, Nat.add_sub_assoc hlen, List.take_append]
  · rw [if_neg ht] at hpost
    rw [if_neg ht, archiveReader_of_no_trailer]
    intro r hr
    rcases List.mem_append.mp hr with hr | hr
    · exact hpre2 r hr
    · rcases List.mem_cons.mp hr with rfl | hr
      · exact ht
      · exact hpost r hr

theorem C7_archive_stream_witness :
    delivered (archiveReader
      ([[1, 2], [3]].map (fun ch => (ch, none)) ++ ([4, 0x1f, 0x8b, 0x08], none) :: [])) =
      if gzipHeader <:+ [4, 0x1f, 0x8b, 0x08] then
        (delivered ([[1, 2], [3]].map (fun ch => (ch, none)) ++
          ([4, 0x1f, 0x8b, 0x08], none) :: [])).take
          ((delivered ([[1, 2], [3]].map (fun ch => (ch, none)) ++
            ([4, 0x1f, 0x8b, 0x08], none) :: [])).length - 3)
      else delivered ([[1, 2], [3]].map (fun ch => (ch, none)) ++
        ([4, 0x1f, 0x8b, 0x08], none) :: []) :=
  C7_archive_stream [[1, 2], [3]] [4, 0x1f, 0x8b, 0x08] none [] (by decide) (by decide)

theorem transfer_calls (c : Client) (src : Reader) (dst : String) (p : SoapUpload) (force : Bool)
    (tr : Trace) :
    ∃ res rest, (c.transfer src dst p force tr).2 =
        tr ++ .InitiateFileTransferToGuest dst p.ContentLength force res :: rest ∧
      initiated rest = [] ∧ buffered rest = [] ∧
      ∀ x ∈ transferred rest, x = (src, p.ContentLength) := by
  unfold Client.transfer
  simp only []
  cases h1 : c.FileManager.InitiateFileTransferToGuest tr dst p.ContentLength force with
  | error e => exact ⟨.error e, [], rfl, rfl, rfl, by simp [transferred]⟩
  | ok url =>
    simp only []
    cases h2 : c.FileManager.TransferURL
        (tr ++ [.InitiateFileTransferToGuest dst p.ContentLength force (.ok url)]) url with
    | error e =>
      exact ⟨.ok url, [.TransferURL url (.error e)], by simp, rfl, rfl, by simp [transferred]⟩
    | ok u =>
      exact ⟨.ok url, [.TransferURL url (.ok u), .Upload src u p (c.ProcessManager.Client.Upload
          (tr ++ [.InitiateFileTransferToGuest dst p.ContentLength force (.ok url)] ++
            [.TransferURL url (.ok u)]) src u p)], by simp, rfl, rfl, by simp [transferred]⟩

/-- C8 (counterexample): for a device, whose `Stat` reports size 0, `Upload` copies
the source into a buffer, announces the 3 bytes it read and transfers the buffer. -/
theorem C8_zero_length_source_is_buffered :
    deviceFile.knownLength = .ok 0 ∧
      initiated (linuxGuest.Upload deviceFile "/tmp/x" DefaultUpload true []).2 = [3] ∧
      buffered (linuxGuest.Upload deviceFile "/tmp/x" DefaultUpload true []).2 = [deviceFile] ∧
      transferred (linuxGuest.Upload deviceFile "/tmp/x" DefaultUpload true []).2 =
        [(.bytesBuffer [1, 2, 3], 3)] := by
  decide

/-- C8 (amended): when `p.ContentLength` is 0 and the source reports a length that
is not 0, `Upload` makes one `InitiateFileTransferToGuest` call, with that length,
copies nothing into a buffer, and hands the source itself to the transfer. -/
theorem C8_known_length_is_used (c : Client) (src : Reader) (dst : String) (p : SoapUpload)
    (force : Bool) (tr : Trace) (len : Int)
    (hp : p.ContentLength = 0) (hk : src.knownLength = .ok len) (hl : len ≠ 0) :
    ∃ new, (c.Upload src dst p force tr).2 = tr ++ new ∧ initiated new = [len] ∧
      buffered new = [] ∧ ∀ x ∈ transferred new, x = (src, len) := by
  obtain ⟨res, rest, h1, h2, h3, h4⟩ :=
    transfer_calls c src dst { p with ContentLength := len } force tr
  refine ⟨.InitiateFileTransferToGuest dst len force res :: rest, ?_, ?_, ?_, ?_⟩
  · unfold Client.Upload
    simp only [hp, hk, hl, if_true, if_false]
    exact h1
  · simp [initiated, h2]
  · simp [buffered, h3]
  · simpa [transferred] using h4

theorem C8_known_length_is_used_witness :
    ∃ new, (linuxGuest.Upload (.stringsReader [108, 115]) "/tmp/x" DefaultUpload true []).2 =
        [] ++ new ∧ initiated new = [2] ∧ buffered new = [] ∧
      ∀ x ∈ transferred new, x = (.stringsReader [108, 115], 2) :=
  C8_known_length_is_used linuxGuest (.stringsReader [108, 115]) "/tmp/x" DefaultUpload true [] 2
    (by decide) (by decide) (by decide)

/-- C9: when `p.ContentLength` is 0 and the source is of none of the recognised
kinds and is read without error, `Upload` first copies the whole source into a
buffer, then makes the `InitiateFileTransferToGuest` call with the number of bytes
buffered, and what it hands to the transfer is the buffer, with that length. -/
theorem C9_unknown_length_is_buffered (c : Client) (reads : ReadScript) (dst : String)
    (p : SoapUpload) (force : Bool) (tr : Trace)
    (hp : p.ContentLength = 0) (hr : (ioCopy reads).2 = none) :
    ∃ res rest, (c.Upload (.other reads) dst p force tr).2 =
        tr ++ .copySource (.other reads) (ioCopy reads).1 none ::
          .InitiateFileTransferToGuest dst (ioCopy reads).1.length force res :: rest ∧
      initiated rest = [] ∧ buffered rest = [] ∧
      ∀ x ∈ transferred rest, x = (.bytesBuffer (ioCopy reads).1, ((ioCopy reads).1.length : Int)) := by
  obtain ⟨res, rest, h1, h2, h3, h4⟩ :=
    transfer_calls c (.bytesBuffer (ioCopy reads).1) dst
      { p with ContentLength := ((ioCopy reads).1.length : Int) } force
      (tr ++ [.copySource (.other reads) (ioCopy reads).1 none])
  refine ⟨res, rest, ?_, h2, h3, h4⟩
  unfold Client.Upload
  simp only [hp, Reader.knownLength, Reader.copy, hr, if_true]
  simpa using h1

theorem C9_unknown_length_is_buffered_witness :
    ∃ res rest, (linuxGuest.Upload (.other [([1, 2], none), ([3], some .EOF)]) "/tmp/x"
        DefaultUpload true []).2 =
        [] ++ .copySource (.other [([1, 2], none), ([3], some .EOF)])
          (ioCopy [([1, 2], none), ([3], some .EOF)]).1 none ::
          .InitiateFileTransferToGuest "/tmp/x"
            (ioCopy [([1, 2], none), ([3], some .EOF)]).1.length true res :: rest ∧
      initiated rest = [] ∧ buffered rest = [] ∧
      ∀ x ∈ transferred rest, x = (.bytesBuffer (ioCopy [([1, 2], none), ([3], some .EOF)]).1,
        ((ioCopy [([1, 2], none), ([3], some .EOF)]).1.length : Int)) :=
  C9_unknown_length_is_buffered linuxGuest [([1, 2], none), ([3], some .EOF)] "/tmp/x"
    DefaultUpload true [] (by decide) (by decide)

/-- C10 (code evaluated at the failing input): when the unpack command cannot be
started, or ends with exit code 3, `RunSimpleCommands` returns that error, but
`UploadFile` and `Upload` of guest.go, called for a directory, return `nil`. -/
theorem C10_unpack_error_is_dropped :
    ((brokenGuest.RunSimpleCommands parsePlain ["mkdir /opt/app -Force", "tar -xzvf a -C /opt/app"]
        5 []).map fun r => r.1) = some (.returned (some (.other "cannot start"))) ∧
      ((brokenGuest.UploadFile parsePlain "/opt/app" (.bytesBuffer [1]) true 5 []).map fun r =>
        (r.1, startFailures r.2)) = some (.returned none, [.other "cannot start"]) ∧
      ((failingGuest.RunSimpleCommands parsePlain
        ["mkdir /opt/app -Force", "tar -xzvf a.tgz -C /opt/app"] 5 []).map fun r => r.1) =
        some (.returned (some (newExitError powershell 3))) ∧
      ((Vsphere.Upload parsePlain (managersOf failingGuest) (.bytesBuffer [1]) ".tgz" "/opt/app"
        true 5 []).map fun r => (r.1, exits r.2)) = some (.returned none, [3]) := by
  decide

theorem created_append (a b : Trace) : created (a ++ b) = created a ++ created b := by
  induction a with
  | nil => rfl
  | cons ev a ih =>
    cases ev with
    | CreateTemporaryFile p s d res => rcases res with e | x <;> simp [created, ih]
    | _ => simp [created, ih]

theorem deleted_append (a b : Trace) : deleted (a ++ b) = deleted a ++ deleted b := by
  induction a with
  | nil => rfl
  | cons ev a ih => cases ev <;> simp [deleted, ih]

theorem emptyReports_append (a b : Trace) :
    emptyReports (a ++ b) = emptyReports a + emptyReports b := by
  induction a with
  | nil => simp [emptyReports]
  | cons ev a ih =>
    cases ev with
    | ListProcesses pids res =>
      rcases res with e | ps
      · simp [emptyReports, ih]
      · cases ps with
        | nil => simp [emptyReports, ih]; omega
        | cons p ps => simp [emptyReports, ih]
    | _ => simp [emptyReports, ih]

theorem runSteps_noFiles (t : Trace) (h : ∀ ev ∈ t, ev.isRunStep = true) :
    created t = [] ∧ deleted t = [] := by
  induction t with
  | nil => exact ⟨rfl, rfl⟩
  | cons ev t ih =>
    have h1 := h ev (by simp)
    have h2 := ih (fun e he => h e (by simp [he]))
    cases ev <;> simp_all [Event.isRunStep, created, deleted]

theorem fileOps_noReports (t : Trace) (h : ∀ ev ∈ t, ev.isFileOp = true) :
    emptyReports t = 0 := by
  induction t with
  | nil => rfl
  | cons ev t ih =>
    have h1 := h ev (by simp)
    have h2 := ih (fun e he => h e (by simp [he]))
    cases ev <;> simp_all [Event.isFileOp, emptyReports]

theorem uploadSteps_quiet (t : Trace) (h : ∀ ev ∈ t, ev.isUploadStep = true) :
    created t = [] ∧ deleted t = [] ∧ emptyReports t = 0 ∧ outputs t = [] := by
  induction t with
  | nil => exact ⟨rfl, rfl, rfl, rfl⟩
  | cons ev t ih =>
    have h1 := h ev (by simp)
    have h2 := ih (fun e he => h e (by simp [he]))
    cases ev <;> simp_all [Event.isUploadStep, created, deleted, emptyReports, outputs]

theorem Download_steps (urlParse : String → Except Error String) (c : Client) (src : String)
    (tr : Trace) :
    ∃ new, (c.Download urlParse src tr).2 = tr ++ new ∧
      ∀ ev ∈ new, ev.isRunStep = true ∧ ev.isFileOp = true := by
  unfold Client.Download
  simp only []
  cases h1 : c.FileManager.InitiateFileTransferFromGuest tr src with
  | error e =>
    exact ⟨[.InitiateFileTransferFromGuest src (.error e)], by simp,
      by simp [Event.isFileOp, Event.isRunStep]⟩
  | ok infoUrl =>
    simp only []
    cases h2 : c.FileManager.TransferURL
        (tr ++ [Event.InitiateFileTransferFromGuest src (Except.ok infoUrl)]) infoUrl with
    | error e =>
      exact ⟨[.InitiateFileTransferFromGuest src (.ok infoUrl), .TransferURL infoUrl (.error e)],
        by simp, by simp [Event.isFileOp, Event.isRunStep]⟩
    | ok u =>
      simp only []
      cases h3 : c.ProcessManager.Client.Download
          (tr ++ [Event.InitiateFileTransferFromGuest src (Except.ok infoUrl)] ++
            [Event.TransferURL infoUrl (Except.ok u)]) u with
      | error e =>
        obtain ⟨n, e⟩ := e
        exact ⟨[.InitiateFileTransferFromGuest src (.ok infoUrl), .TransferURL infoUrl (.ok u),
          .Download u (.error (n, e))], by simp, by simp [Event.isFileOp, Event.isRunStep]⟩
      | ok r =>
        obtain ⟨f, n⟩ := r
        simp only []
        split
        · exact ⟨[.InitiateFileTransferFromGuest src (.ok infoUrl), .TransferURL infoUrl (.ok u),
            .Download u (.ok (f, n))], by simp, by simp [Event.isFileOp, Event.isRunStep]⟩
        · exact ⟨[.InitiateFileTransferFromGuest src (.ok infoUrl), .TransferURL infoUrl (.ok u),
            .Download u (.ok (f, n))], by simp, by simp [Event.isFileOp, Event.isRunStep]⟩

theorem transfer_steps (c : Client) (src : Reader) (dst : String) (p : SoapUpload) (force : Bool)
    (tr : Trace) :
    ∃ new, (c.transfer src dst p force tr).2 = tr ++ new ∧
      ∀ ev ∈ new, ev.isUploadStep = true := by
  obtain ⟨res, rest, h1, _, _, _⟩ := transfer_calls c src dst p force tr
  refine ⟨_, h1, ?_⟩
  unfold Client.transfer at h1
  simp only [] at h1
  cases h2 : c.FileManager.InitiateFileTransferToGuest tr dst p.ContentLength force with
  | error e =>
    rw [h2] at h1
    simp only [] at h1
    have := List.append_cancel_left h1
    simp only [List.cons.injEq, List.nil_eq] at this
    obtain ⟨_, rfl⟩ := this
    simp [Event.isUploadStep]
  | ok url =>
    rw [h2] at h1
    simp only [] at h1
    cases h3 : c.FileManager.TransferURL
        (tr ++ [.InitiateFileTransferToGuest dst p.ContentLength force (.ok url)]) url with
    | error e =>
      rw [h3] at h1
      simp only [List.append_assoc] at h1
      have := List.append_cancel_left h1
      simp only [List.singleton_append, List.cons.injEq] at this
      obtain ⟨_, rfl⟩ := this
      simp [Event.isUploadStep]
    | ok u =>
      rw [h3] at h1
      simp only [List.append_assoc] at h1
      have := List.append_cancel_left h1
      simp only [List.singleton_append, List.cons.injEq] at this
      obtain ⟨_, rfl⟩ := this
      simp [Event.isUploadStep]

theorem Upload_steps (c : Client) (src : Reader) (dst : String) (p : SoapUpload) (force : Bool)
    (tr : Trace) :
    ∃ new, (c.Upload src dst p force tr).2 = tr ++ new ∧ ∀ ev ∈ new, ev.isUploadStep = true := by
  unfold Client.Upload
  split
  · split
    · exact ⟨[], by simp, by simp⟩
    · simp only []
      split
      · split
        · exact ⟨[_], rfl, by simp [Event.isUploadStep]⟩
        · obtain ⟨new, h1, h2⟩ := transfer_steps c (.bytesBuffer src.copy.1) dst
            { p with ContentLength := (src.copy.1.length : Int) } force
            (tr ++ [.copySource src src.copy.1 src.copy.2])
          refine ⟨[.copySource src src.copy.1 src.copy.2] ++ new, ?_, ?_⟩
          · rw [h1]; simp
          · intro ev hev
            simp only [List.mem_append, List.mem_singleton] at hev
            rcases hev with rfl | hev
            · rfl
            · exact h2 ev hev
      · exact transfer_steps c src dst _ force tr
  · exact transfer_steps c src dst p force tr

theorem inBounds_of_append (l : Int) (xs ys : List (Bytes × Int)) (h : inBounds l (xs ++ ys)) :
    inBounds l xs ∧ inBounds (offsetAfter l xs) ys := by
  induction xs generalizing l with
  | nil => exact ⟨trivial, h⟩
  | cons x xs ih =>
    obtain ⟨c, n⟩ := x
    obtain ⟨h1, h2⟩ := h
    obtain ⟨h3, h4⟩ := ih n h2
    exact ⟨⟨h1, h3⟩, h4⟩

theorem pollOutput_steps (urlParse : String → Except Error String) (c : Client)
    (out : Option String) (l : Int) (tr : Trace) :
    ∃ new, (c.pollOutput urlParse out l tr).2 = tr ++ new ∧
      (∀ ev ∈ new, ev.isRunStep = true) ∧ emptyReports new = 0 ∧
      ((c.pollOutput urlParse out l tr).1 = .panic → ¬ inBounds l (outputs new)) ∧
      (∀ l2, (c.pollOutput urlParse out l tr).1 = .next l2 →
        inBounds l (outputs new) ∧ l2 = offsetAfter l (outputs new)) ∧
      (∀ l2 path, out = some path → (c.pollOutput urlParse out l tr).1 = .next l2 →
        ∃ content, outputs new = [(content, l2)]) := by
  unfold Client.pollOutput
  cases out with
  | none =>
    refine ⟨[], by simp, by simp, rfl, by simp, ?_, by simp⟩
    intro l2 h
    simp only [Ctl.next.injEq] at h
    subst h
    exact ⟨trivial, rfl⟩
  | some path =>
    obtain ⟨new, hnew, hsteps⟩ := Download_steps urlParse c path tr
    have hfile : ∀ ev ∈ new, ev.isFileOp = true := fun ev h => (hsteps ev h).2
    have hrun : ∀ ev ∈ new, ev.isRunStep = true := fun ev h => (hsteps ev h).1
    have q2 := (fileOps_quiet new hfile).2.1
    have q6 := fileOps_noReports new hfile
    simp only []
    rcases hd : c.Download urlParse path tr with ⟨res, tr2⟩
    rw [hd] at hnew
    simp only [] at hnew
    subst hnew
    rcases res with ⟨n, e⟩ | ⟨f, n⟩
    · simp only []
      exact ⟨new, rfl, hrun, q6, by simp, by simp, by simp⟩
    · simp only []
      cases hs : sliceString (ioCopy f).1 l n with
      | none =>
        refine ⟨new ++ [.copyOutput (ioCopy f).1 n], by simp, ?_, ?_, ?_, by simp, by simp⟩
        · intro ev hev
          rcases List.mem_append.mp hev with hev | hev
          · exact hrun ev hev
          · simp only [List.mem_singleton] at hev
            subst hev
            rfl
        · simp [emptyReports_append, q6, emptyReports]
        · intro _
          simp [outputs_append, q2, outputs, inBounds, hs]
      | some s =>
        refine ⟨new ++ [.copyOutput (ioCopy f).1 n, .send s], by simp, ?_, ?_, by simp, ?_, ?_⟩
        · intro ev hev
          rcases List.mem_append.mp hev with hev | hev
          · exact hrun ev hev
          · simp only [List.mem_cons, List.mem_singleton, List.not_mem_nil, or_false] at hev
            rcases hev with rfl | rfl <;> rfl
        · simp [emptyReports_append, q6, emptyReports]
        · intro l2 h
          simp only [Ctl.next.injEq] at h
          subst h
          simp [outputs_append, q2, outputs, inBounds, hs, offsetAfter]
        · intro l2 p _ h
          simp only [Ctl.next.injEq] at h
          subst h
          exact ⟨(ioCopy f).1, by simp [outputs_append, q2, outputs]⟩

theorem pollLoop_steps (urlParse : String → Except Error String) (c : Client)
    (out : Option String) (pid : Int) :
    ∀ (fuel : Nat) (l : Int) (tr : Trace) (r : Ctl (Int × Int) × Trace),
      c.pollLoop urlParse out pid fuel l tr = some r →
      ∃ new, r.2 = tr ++ new ∧ (∀ ev ∈ new, ev.isRunStep = true) ∧
        (r.1 = .panic → emptyReports new ≠ 0 ∨ ¬ inBounds l (outputs new)) ∧
        (∀ rc l2, r.1 = .next (rc, l2) →
          inBounds l (outputs new) ∧ l2 = offsetAfter l (outputs new)) := by
  intro fuel
  induction fuel with
  | zero => intro l tr r h; simp [Client.pollLoop] at h
  | succ fuel ih =>
    intro l tr r h
    unfold Client.pollLoop at h
    simp only [] at h
    cases hp : c.ProcessManager.ListProcesses tr [pid] with
    | error err =>
      rw [hp] at h
      simp only [Option.some.injEq] at h
      subst h
      exact ⟨[.ListProcesses [pid] (.error err)], rfl, by simp [Event.isRunStep], by simp,
        by simp⟩
    | ok procs =>
      rw [hp] at h
      cases procs with
      | nil =>
        simp only [Option.some.injEq] at h
        subst h
        exact ⟨[.ListProcesses [pid] (.ok [])], rfl, by simp [Event.isRunStep],
          by simp [emptyReports], by simp⟩
      | cons p ps =>
        simp only [] at h
        cases he : p.EndTime with
        | some t =>
          rw [he] at h
          simp only [Option.some.injEq] at h
          subst h
          refine ⟨[.ListProcesses [pid] (.ok (p :: ps))], rfl, by simp [Event.isRunStep],
            by simp, ?_⟩
          intro rc l2 h
          simp only [Ctl.next.injEq, Prod.mk.injEq] at h
          obtain ⟨_, h2⟩ := h
          subst h2
          exact ⟨trivial, rfl⟩
        | none =>
          rw [he] at h
          simp only [] at h
          obtain ⟨new1, hn1, r1, e1, p1, nx1, _⟩ := pollOutput_steps urlParse c out l
            (tr ++ [.ListProcesses [pid] (.ok (p :: ps))])
          rcases hq : c.pollOutput urlParse out l (tr ++ [.ListProcesses [pid] (.ok (p :: ps))])
            with ⟨ctl, tr1⟩
          rw [hq] at h hn1 nx1 p1
          simp only [] at hn1 nx1 p1
          subst hn1
          have hrun1 : ∀ ev ∈ [Event.ListProcesses [pid] (.ok (p :: ps))] ++ new1,
              ev.isRunStep = true := by
            intro ev hev
            rcases List.mem_append.mp hev with hev | hev
            · simp only [List.mem_singleton] at hev
              subst hev
              rfl
            · exact r1 ev hev
          have ho1 : outputs ([Event.ListProcesses [pid] (.ok (p :: ps))] ++ new1) =
              outputs new1 := by simp [outputs_append, outputs]
          cases ctl with
          | ret err =>
            simp only [Option.some.injEq] at h
            subst h
            exact ⟨[.ListProcesses [pid] (.ok (p :: ps))] ++ new1, by simp, hrun1, by simp,
              by simp⟩
          | panic =>
            simp only [Option.some.injEq] at h
            subst h
            refine ⟨[.ListProcesses [pid] (.ok (p :: ps))] ++ new1, by simp, hrun1, ?_, by simp⟩
            intro _
            right
            rw [ho1]
            exact p1 rfl
          | next l1 =>
            simp only [] at h
            obtain ⟨b1, o1⟩ := nx1 l1 rfl
            obtain ⟨new2, hn2, r2, p2, nx2⟩ := ih l1 _ r h
            have ho : outputs ([Event.ListProcesses [pid] (.ok (p :: ps))] ++ new1 ++ new2) =
                outputs new1 ++ outputs new2 := by simp [outputs_append, outputs]
            refine ⟨[.ListProcesses [pid] (.ok (p :: ps))] ++ new1 ++ new2, by simp [hn2], ?_,
              ?_, ?_⟩
            · intro ev hev
              rcases List.mem_append.mp hev with hev | hev
              · exact hrun1 ev hev
              · exact r2 ev hev
            · intro hpanic
              rcases p2 hpanic with h3 | h3
              · left
                rw [emptyReports_append]
                omega
              · right
                rw [ho]
                intro hb
                exact h3 (o1 ▸ (inBounds_of_append l _ _ hb).2)
            · intro rc l2 hr
              obtain ⟨b2, o2⟩ := nx2 rc l2 hr
              rw [ho]
              exact ⟨inBounds_append l _ _ b1 (o1 ▸ b2), by rw [offsetAfter_append, ← o1, o2]⟩

theorem startAndWait_steps (urlParse : String → Except Error String) (c : Client)
    (spec : GuestProgramSpec) (name : String) (out : Option String) (fuel : Nat) (tr : Trace)
    (r : Outcome × Trace) (h : c.startAndWait urlParse spec name out fuel tr = some r) :
    ∃ new, r.2 = tr ++ new ∧ (∀ ev ∈ new, ev.isRunStep = true) ∧
      (r.1 = .panicked → emptyReports new ≠ 0 ∨ ¬ inBounds 0 (outputs new)) := by
  unfold Client.startAndWait at h
  simp only [] at h
  cases hs : c.ProcessManager.StartProgram tr spec with
  | error err =>
    rw [hs] at h
    simp only [Option.some.injEq] at h
    subst h
    exact ⟨[.StartProgram spec (.error err)], rfl, by simp [Event.isRunStep], by simp⟩
  | ok pid =>
    rw [hs] at h
    simp only [] at h
    have hsr : ∀ ev ∈ [Event.StartProgram spec (.ok pid)], ev.isRunStep = true := by
      intro ev hev
      simp only [List.mem_singleton] at hev
      subst hev
      rfl
    cases hl : c.pollLoop urlParse out pid fuel 0 (tr ++ [.StartProgram spec (.ok pid)]) with
    | none => rw [hl] at h; simp at h
    | some x =>
      rw [hl] at h
      obtain ⟨new1, hn1, r1, p1, nx1⟩ := pollLoop_steps urlParse c out pid fuel 0 _ x hl
      obtain ⟨ctl, tr1⟩ := x
      simp only [] at hn1 nx1 p1
      subst hn1
      have hrun1 : ∀ ev ∈ [Event.StartProgram spec (.ok pid)] ++ new1, ev.isRunStep = true := by
        intro ev hev
        rcases List.mem_append.mp hev with hev | hev
        · exact hsr ev hev
        · exact r1 ev hev
      have ho1 : outputs ([Event.StartProgram spec (.ok pid)] ++ new1) = outputs new1 := by
        simp [outputs_append, outputs]
      have he1 : emptyReports ([Event.StartProgram spec (.ok pid)] ++ new1) =
          emptyReports new1 := by simp [emptyReports_append, emptyReports]
      cases ctl with
      | ret err =>
        simp only [Option.some.injEq] at h
        subst h
        exact ⟨[.StartProgram spec (.ok pid)] ++ new1, by simp, hrun1, by simp⟩
      | panic =>
        simp only [Option.some.injEq] at h
        subst h
        refine ⟨[.StartProgram spec (.ok pid)] ++ new1, by simp, hrun1, ?_⟩
        intro _
        rw [he1, ho1]
        exact p1 rfl
      | next a =>
        obtain ⟨rc, l⟩ := a
        simp only [] at h
        obtain ⟨b1, o1⟩ := nx1 rc l rfl
        obtain ⟨new2, hn2, r2, e2, p2, nx2, _⟩ := pollOutput_steps urlParse c out l
          (tr ++ [.StartProgram spec (.ok pid)] ++ new1)
        rcases hq : c.pollOutput urlParse out l (tr ++ [.StartProgram spec (.ok pid)] ++ new1)
          with ⟨ctl, tr2⟩
        rw [hq] at h hn2 nx2 p2
        simp only [] at hn2 nx2 p2
        subst hn2
        have hrun : ∀ ev ∈ [Event.StartProgram spec (.ok pid)] ++ new1 ++ new2,
            ev.isRunStep = true := by
          intro ev hev
          rcases List.mem_append.mp hev with hev | hev
          · exact hrun1 ev hev
          · exact r2 ev hev
        have ho : outputs ([Event.StartProgram spec (.ok pid)] ++ new1 ++ new2) =
            outputs new1 ++ outputs new2 := by simp [outputs_append, outputs]
        cases ctl with
        | ret err =>
          simp only [Option.some.injEq] at h
          subst h
          exact ⟨[.StartProgram spec (.ok pid)] ++ new1 ++ new2, by simp, hrun, by simp⟩
        | panic =>
          simp only [Option.some.injEq] at h
          subst h
          refine ⟨[.StartProgram spec (.ok pid)] ++ new1 ++ new2, by simp, hrun, ?_⟩
          intro _
          right
          rw [ho]
          intro hb
          exact p2 rfl (o1 ▸ (inBounds_of_append 0 _ _ hb).2)
        | next l2 =>
          simp only [] at h
          refine ⟨[Event.StartProgram spec (.ok pid)] ++ new1 ++ new2, ?_, hrun, ?_⟩
          · split at h <;> (simp only [Option.some.injEq] at h; subst h; simp)
          · intro hp
            split at h <;> (simp only [Option.some.injEq] at h; subst h; simp at hp)

/-- A run wrapped in a scratch file, for a property closed under the frames. -/
theorem closed_withTemp (P : Trace → Outcome → Prop) (hP : RunClosed P) (c : Client)
    (pfx sfx dir : String) (tr : Trace)
    (body : String → Trace → Option (Outcome × Trace)) (r : Outcome × Trace)
    (hbody : ∀ dst t r1, body dst t = some r1 → ∃ new, r1.2 = t ++ new ∧ P new r1.1)
    (h : (match c.createTemporaryFile pfx sfx dir tr with
      | (.error err, tr) => some (.returned (some err), tr)
      | (.ok dst, tr) => deferred (c.rm dst) (body dst tr)) = some r) :
    ∃ new, r.2 = tr ++ new ∧ P new r.1 := by
  unfold Client.createTemporaryFile at h
  simp only [] at h
  cases hc : c.FileManager.CreateTemporaryFile tr pfx sfx dir with
  | error err =>
    rw [hc] at h
    simp only [Option.some.injEq] at h
    subst h
    exact ⟨[.CreateTemporaryFile pfx sfx dir (.error err)], rfl,
      hP.createFailed _ _ _ _ _ _ (hP.ret err)⟩
  | ok dst =>
    rw [hc] at h
    simp only [] at h
    obtain ⟨r1, h1, h2⟩ := deferred_eq_some _ _ _ h
    obtain ⟨new, hn, hinv⟩ := hbody dst _ r1 h1
    subst h2
    refine ⟨.CreateTemporaryFile pfx sfx dir (.ok dst) ::
      (new ++ [.DeleteFile dst (c.FileManager.DeleteFile r1.2 dst)]), ?_, ?_⟩
    · simp [Client.rm, hn]
    · exact hP.temp _ _ _ _ _ _ _ hinv

/-- A run with `defer close(data)`, for a property closed under the frames. -/
theorem closed_withClose (P : Trace → Outcome → Prop) (hP : RunClosed P) (tr : Trace)
    (x : Option (Outcome × Trace)) (r : Outcome × Trace)
    (hx : ∀ r1, x = some r1 → ∃ new, r1.2 = tr ++ new ∧ P new r1.1)
    (h : deferred (fun tr => tr ++ [Event.close]) x = some r) :
    ∃ new, r.2 = tr ++ new ∧ P new r.1 := by
  obtain ⟨r1, h1, h2⟩ := deferred_eq_some _ _ _ h
  obtain ⟨new, hn, hinv⟩ := hx r1 h1
  subst h2
  exact ⟨new ++ [.close], by simp [hn], hP.close _ _ hinv⟩

theorem closed_RunSimpleCommands (P : Trace → Outcome → Prop) (hP : RunClosed P)
    (urlParse : String → Except Error String) (c : Client)
    (htail : ∀ spec name out fuel t r, c.startAndWait urlParse spec name out fuel t = some r →
      ∃ new, r.2 = t ++ new ∧ P new r.1)
    (commands : List String) (fuel : Nat) (tr : Trace) (r : Outcome × Trace)
    (h : c.RunSimpleCommands urlParse commands fuel tr = some r) :
    ∃ new, r.2 = tr ++ new ∧ P new r.1 := by
  unfold Client.RunSimpleCommands Client.mktemp at h
  exact closed_withTemp P hP c _ _ _ tr
    (fun dst t => c.startAndWait urlParse (batchSpec c.GuestFamily (join commands ";") dst)
      (batchSpec c.GuestFamily (join commands ";") dst).ProgramPath none fuel t) r
    (fun dst t r2 h2 => htail _ _ _ fuel t r2 h2) h

theorem closed_invoke (P : Trace → Outcome → Prop) (hP : RunClosed P)
    (urlParse : String → Except Error String) (c : Client)
    (htail : ∀ spec name out fuel t r, c.startAndWait urlParse spec name out fuel t = some r →
      ∃ new, r.2 = t ++ new ∧ P new r.1)
    (inv : Invocation) (fuel : Nat) (r : Outcome × Trace)
    (h : c.invoke urlParse inv fuel = some r) : P r.2 r.1 := by
  have key : ∃ new, r.2 = [] ++ new ∧ P new r.1 := by
    cases inv with
    | Run cmd =>
      simp only [Client.invoke] at h
      unfold Client.Run Client.mktemp at h
      refine closed_withClose P hP [] _ r (fun r1 h1 => ?_) h
      cases hs : cmd.Stdout with
      | none =>
        rw [hs] at h1
        exact htail _ _ _ fuel [] r1 h1
      | some w =>
        rw [hs] at h1
        exact closed_withTemp P hP c _ _ _ []
          (fun dst t => c.startAndWait urlParse
            (Run.spec c.GuestFamily cmd (cmd.Args ++ ["| Out-File ", dst, " -encoding ASCII"]))
            cmd.Path (some dst) fuel t) r1
          (fun dst t r2 h2 => htail _ _ _ fuel t r2 h2) h1
    | RunCommands commands =>
      simp only [Client.invoke] at h
      unfold Client.RunCommands Client.mktemp at h
      refine closed_withClose P hP [] _ r (fun r1 h1 => ?_) h
      exact closed_withTemp P hP c _ _ _ []
        (fun dst t => c.startAndWait urlParse (batchSpec c.GuestFamily (join commands ";") dst)
          (batchSpec c.GuestFamily (join commands ";") dst).ProgramPath (some dst) fuel t) r1
        (fun dst t r2 h2 => htail _ _ _ fuel t r2 h2) h1
    | RunCommand command =>
      simp only [Client.invoke] at h
      unfold Client.RunCommand Client.mktemp at h
      exact closed_withTemp P hP c _ _ _ []
        (fun dst t => c.startAndWait urlParse (batchSpec c.GuestFamily command dst)
          (batchSpec c.GuestFamily command dst).ProgramPath (some dst) fuel t) r
        (fun dst t r2 h2 => htail _ _ _ fuel t r2 h2) h
    | RunSimpleCommands commands =>
      simp only [Client.invoke] at h
      exact closed_RunSimpleCommands P hP urlParse c htail commands fuel [] r h
    | RunScript script =>
      simp only [Client.invoke] at h
      unfold Client.RunScript Client.mktemp at h
      refine closed_withClose P hP [] _ r (fun r1 h1 => ?_) h
      refine closed_withTemp P hP c _ _ _ []
        (fun execfile t =>
          match c.Upload (.stringsReader script) execfile DefaultUpload true t with
          | (some err, tr) => some (.returned (some err), tr)
          | (none, tr) =>
            match c.createTemporaryFile "govmomi-" "" "" tr with
            | (.error err, tr) => some (.returned (some err), tr)
            | (.ok outFile, tr) =>
              deferred (c.rm outFile) <|
                if c.GuestFamily = VirtualMachineGuestOsFamilyWindowsGuest then
                  c.startAndWait urlParse
                    { ProgramPath := powershell
                      Arguments := join [execfile, "| Out-File", outFile, "-encoding ASCII"] " "
                      WorkingDirectory := ""
                      EnvVariables := [] }
                    powershell (some outFile) fuel tr
                else
                  some (.returned (some (.Errorf "not a windows system")), tr)) r1 ?_ h1
      intro execfile t r2 h2
      obtain ⟨newU, hU, hup⟩ :=
        Upload_steps c (.stringsReader script) execfile DefaultUpload true t
      rcases hu : c.Upload (.stringsReader script) execfile DefaultUpload true t with ⟨res, tu⟩
      beta_reduce at h2
      rw [hu] at h2 hU
      simp only [] at hU
      subst hU
      cases res with
      | some err =>
        simp only [Option.some.injEq] at h2
        subst h2
        exact ⟨newU, rfl, by simpa using hP.upload newU [] _ hup (hP.ret err)⟩
      | none =>
        simp only [] at h2
        obtain ⟨new, hn, hinv⟩ := closed_withTemp P hP c _ _ _ (t ++ newU)
          (fun outFile tr =>
            if c.GuestFamily = VirtualMachineGuestOsFamilyWindowsGuest then
              c.startAndWait urlParse
                { ProgramPath := powershell
                  Arguments := join [execfile, "| Out-File", outFile, "-encoding ASCII"] " "
                  WorkingDirectory := ""
                  EnvVariables := [] }
                powershell (some outFile) fuel tr
            else
              some (.returned (some (.Errorf "not a windows system")), tr)) r2
          (fun outFile t3 r3 h3 => by
            simp only [] at h3
            split at h3
            · exact htail _ _ _ fuel t3 r3 h3
            · simp only [Option.some.injEq] at h3
              subst h3
              exact ⟨[], by simp, hP.ret _⟩) h2
        exact ⟨newU ++ new, by simp [hn], hP.upload newU new _ hup hinv⟩
  obtain ⟨new, h1, h2⟩ := key
  simpa [h1] using h2

theorem Cleaned_closed : RunClosed Cleaned where
  ret := fun _ => rfl
  createFailed := by
    intro pfx sfx dir err new o h
    unfold Cleaned at h ⊢
    simpa [created, deleted] using h
  temp := by
    intro pfx sfx dir dst res new o h
    unfold Cleaned at h ⊢
    simp [created, deleted, created_append, deleted_append, h]
  close := by
    intro new o h
    unfold Cleaned at h ⊢
    simp [created_append, deleted_append, created, deleted, h]
  upload := by
    intro pre new o hpre h
    unfold Cleaned at h ⊢
    obtain ⟨h1, h2, _, _⟩ := uploadSteps_quiet pre hpre
    simp [created_append, deleted_append, h1, h2, h]

theorem Cleaned_startAndWait (urlParse : String → Except Error String) (c : Client)
    (spec : GuestProgramSpec) (name : String) (out : Option String) (fuel : Nat) (t : Trace)
    (r : Outcome × Trace) (h : c.startAndWait urlParse spec name out fuel t = some r) :
    ∃ new, r.2 = t ++ new ∧ Cleaned new r.1 := by
  obtain ⟨new, h1, h2, _⟩ := startAndWait_steps urlParse c spec name out fuel t r h
  obtain ⟨h3, h4⟩ := runSteps_noFiles new h2
  exact ⟨new, h1, by unfold Cleaned; rw [h3, h4]; rfl⟩

theorem Cleaned_uploadStaged (urlParse : String → Except Error String) (c : Client)
    (vcFile dst : String) (f : Reader) (isDir : Bool) (fuel : Nat) (tr : Trace)
    (r : Outcome × Trace) (h : c.uploadStaged urlParse vcFile dst f isDir fuel tr = some r) :
    ∃ new, r.2 = tr ++ new ∧ Cleaned new r.1 := by
  unfold Client.uploadStaged at h
  obtain ⟨newU, hU, hup⟩ := Upload_steps c f vcFile DefaultUpload true tr
  obtain ⟨u1, u2, _, _⟩ := uploadSteps_quiet newU hup
  rcases hu : c.Upload f vcFile DefaultUpload true tr with ⟨res, tu⟩
  rw [hu] at h hU
  simp only [] at hU
  subst hU
  cases res with
  | some err =>
    simp only [Option.some.injEq] at h
    subst h
    exact ⟨newU, rfl, by unfold Cleaned; rw [u1, u2]; rfl⟩
  | none =>
    simp only [] at h
    cases isDir with
    | true =>
      simp only [if_true] at h
      cases hr : c.RunSimpleCommands urlParse
          ["mkdir " ++ dst ++ " -Force", "tar -xzvf " ++ vcFile ++ " -C " ++ dst] fuel
          (tr ++ newU) with
      | none => rw [hr] at h; simp at h
      | some r1 =>
        rw [hr] at h
        obtain ⟨new, hn, hc⟩ := closed_RunSimpleCommands Cleaned Cleaned_closed urlParse c
          (Cleaned_startAndWait urlParse c) _ fuel _ r1 hr
        obtain ⟨o1, t1⟩ := r1
        simp only [] at hn hc
        subst hn
        have hcl : Cleaned (newU ++ new) r.1 := Cleaned_closed.upload newU new _ hup hc
        cases o1 with
        | panicked =>
          simp only [Option.some.injEq] at h
          subst h
          exact ⟨newU ++ new, by simp, hcl⟩
        | returned e =>
          simp only [Option.some.injEq] at h
          subst h
          exact ⟨newU ++ new, by simp, hcl⟩
    | false =>
      simp only [Bool.false_eq_true, if_false] at h
      refine ⟨newU ++ [.MoveFile vcFile dst true (c.FileManager.MoveFile (tr ++ newU) vcFile dst
        true)], ?_, ?_⟩
      · split at h <;> (simp only [Option.some.injEq] at h; subst h; simp)
      · unfold Cleaned
        simp [created_append, deleted_append, u1, u2, created, deleted]

theorem Cleaned_UploadFile (urlParse : String → Except Error String) (c : Client)
    (dst : String) (f : Reader) (isDir : Bool) (fuel : Nat) (tr : Trace) (r : Outcome × Trace)
    (h : c.UploadFile urlParse dst f isDir fuel tr = some r) :
    ∃ new, r.2 = tr ++ new ∧ Cleaned new r.1 := by
  unfold Client.UploadFile at h
  exact closed_withTemp Cleaned Cleaned_closed c _ _ _ tr
    (fun vcFile t => c.uploadStaged urlParse vcFile dst f isDir fuel t) r
    (fun vcFile t r1 h1 => Cleaned_uploadStaged urlParse c vcFile dst f isDir fuel t r1 h1) h

/-- C11: when a run method or `UploadFile` returns, on whatever path, the paths for
which `DeleteFile` was called are exactly the scratch paths it was given by
`CreateTemporaryFile`, each as often as it was given out: one delete call for every
scratch file, and none for any other path. -/
theorem C11_scratch_files_deleted_once (urlParse : String → Except Error String) (c : Client)
    (inv : Invocation) (fuel : Nat) (o : Outcome) (tr : Trace)
    (dst : String) (f : Reader) (isDir : Bool) (fuel2 : Nat) (o2 : Outcome) (tr2 : Trace)
    (h : c.invoke urlParse inv fuel = some (o, tr))
    (h2 : c.UploadFile urlParse dst f isDir fuel2 [] = some (o2, tr2)) :
    (deleted tr).Perm (created tr) ∧ (deleted tr2).Perm (created tr2) := by
  have h3 : Cleaned tr o := closed_invoke Cleaned Cleaned_closed urlParse c
    (Cleaned_startAndWait urlParse c) inv fuel _ h
  obtain ⟨new, hn, h4⟩ := Cleaned_UploadFile urlParse c dst f isDir fuel2 [] _ h2
  simp only [List.nil_append] at hn
  subst hn
  unfold Cleaned at h3 h4
  rw [h3, h4]
  exact ⟨List.reverse_perm _, List.reverse_perm _⟩

theorem C11_scratch_files_deleted_once_witness :
    (deleted (traceOf failingRun)).Perm (created (traceOf failingRun)) ∧
      (deleted (traceOf (failingGuest.UploadFile parsePlain "/opt/app" (.bytesBuffer [1]) true 5
        []))).Perm
        (created (traceOf (failingGuest.UploadFile parsePlain "/opt/app" (.bytesBuffer [1]) true 5
          []))) :=
  C11_scratch_files_deleted_once parsePlain failingGuest (.RunScript [101, 120, 105, 116, 32, 51])
    5 (.returned (some (newExitError powershell 3))) (traceOf failingRun)
    "/opt/app" (.bytesBuffer [1]) true 5 (.returned none)
    (traceOf (failingGuest.UploadFile parsePlain "/opt/app" (.bytesBuffer [1]) true 5 []))
    (by decide) (by decide)

theorem deferred_fst (d : Trace → Trace) (x : Option (Outcome × Trace)) :
    (deferred d x).map Prod.fst = x.map Prod.fst := by
  cases x <;> simp [deferred]

theorem pollLoop_withDeleteFile (urlParse : String → Except Error String) (c : Client)
    (del : Trace → String → Option Error) (out : Option String) (pid : Int) :
    ∀ (fuel : Nat) (l : Int) (tr : Trace),
      (c.withDeleteFile del).pollLoop urlParse out pid fuel l tr =
        c.pollLoop urlParse out pid fuel l tr := by
  intro fuel
  induction fuel with
  | zero => intro l tr; rfl
  | succ fuel ih =>
    intro l tr
    unfold Client.pollLoop
    simp only []
    have hl : (c.withDeleteFile del).ProcessManager.ListProcesses tr [pid] =
        c.ProcessManager.ListProcesses tr [pid] := rfl
    rw [hl]
    cases c.ProcessManager.ListProcesses tr [pid] with
    | error err => rfl
    | ok procs =>
      cases procs with
      | nil => rfl
      | cons p ps =>
        simp only []
        cases p.EndTime with
        | some t => rfl
        | none =>
          simp only []
          have hq : (c.withDeleteFile del).pollOutput urlParse out l
              (tr ++ [.ListProcesses [pid] (.ok (p :: ps))]) =
              c.pollOutput urlParse out l (tr ++ [.ListProcesses [pid] (.ok (p :: ps))]) := rfl
          rw [hq]
          simp only [ih]

theorem startAndWait_withDeleteFile (urlParse : String → Except Error String) (c : Client)
    (del : Trace → String → Option Error) (spec : GuestProgramSpec) (name : String)
    (out : Option String) (fuel : Nat) (tr : Trace) :
    (c.withDeleteFile del).startAndWait urlParse spec name out fuel tr =
      c.startAndWait urlParse spec name out fuel tr := by
  unfold Client.startAndWait
  simp only []
  have hs : (c.withDeleteFile del).ProcessManager.StartProgram tr spec =
      c.ProcessManager.StartProgram tr spec := rfl
  rw [hs]
  cases c.ProcessManager.StartProgram tr spec with
  | error err => rfl
  | ok pid =>
    simp only []
    rw [pollLoop_withDeleteFile]
    rfl

/-- The outcome of a run wrapped in a scratch file does not depend on the answers of
`DeleteFile`, when that of its body does not. -/
theorem withTemp_fst (c : Client) (del : Trace → String → Option Error) (pfx sfx dir : String)
    (tr : Trace) (body1 body2 : String → Trace → Option (Outcome × Trace))
    (hbody : ∀ dst t, (body1 dst t).map Prod.fst = (body2 dst t).map Prod.fst) :
    (match (c.withDeleteFile del).createTemporaryFile pfx sfx dir tr with
      | (.error err, tr) => some (Outcome.returned (some err), tr)
      | (.ok dst, tr) => deferred ((c.withDeleteFile del).rm dst) (body1 dst tr)).map Prod.fst =
    (match c.createTemporaryFile pfx sfx dir tr with
      | (.error err, tr) => some (Outcome.returned (some err), tr)
      | (.ok dst, tr) => deferred (c.rm dst) (body2 dst tr)).map Prod.fst := by
  have hc : (c.withDeleteFile del).createTemporaryFile pfx sfx dir tr =
      c.createTemporaryFile pfx sfx dir tr := rfl
  rw [hc]
  unfold Client.createTemporaryFile
  simp only []
  cases c.FileManager.CreateTemporaryFile tr pfx sfx dir with
  | error err => rfl
  | ok dst =>
    simp only []
    rw [deferred_fst, deferred_fst]
    exact hbody dst _

theorem RunSimpleCommands_withDeleteFile (urlParse : String → Except Error String) (c : Client)
    (del : Trace → String → Option Error) (commands : List String) (fuel : Nat) (tr : Trace) :
    ((c.withDeleteFile del).RunSimpleCommands urlParse commands fuel tr).map Prod.fst =
      (c.RunSimpleCommands urlParse commands fuel tr).map Prod.fst := by
  unfold Client.RunSimpleCommands Client.mktemp
  exact withTemp_fst c del _ _ _ tr
    (fun dst t => (c.withDeleteFile del).startAndWait urlParse
      (batchSpec c.GuestFamily (join commands ";") dst)
      (batchSpec c.GuestFamily (join commands ";") dst).ProgramPath none fuel t)
    (fun dst t => c.startAndWait urlParse (batchSpec c.GuestFamily (join commands ";") dst)
      (batchSpec c.GuestFamily (join commands ";") dst).ProgramPath none fuel t)
    (fun dst t => by beta_reduce; rw [startAndWait_withDeleteFile])

theorem invoke_withDeleteFile (urlParse : String → Except Error String) (c : Client)
    (del : Trace → String → Option Error) (inv : Invocation) (fuel : Nat) :
    ((c.withDeleteFile del).invoke urlParse inv fuel).map Prod.fst =
      (c.invoke urlParse inv fuel).map Prod.fst := by
  cases inv with
  | Run cmd =>
    simp only [Client.invoke]
    unfold Client.Run Client.mktemp
    rw [deferred_fst, deferred_fst]
    cases cmd.Stdout with
    | none =>
      simp only []
      rw [startAndWait_withDeleteFile]
      rfl
    | some w =>
      simp only []
      exact withTemp_fst c del _ _ _ []
        (fun dst t => (c.withDeleteFile del).startAndWait urlParse
          (Run.spec c.GuestFamily cmd (cmd.Args ++ ["| Out-File ", dst, " -encoding ASCII"]))
          cmd.Path (some dst) fuel t)
        (fun dst t => c.startAndWait urlParse
          (Run.spec c.GuestFamily cmd (cmd.Args ++ ["| Out-File ", dst, " -encoding ASCII"]))
          cmd.Path (some dst) fuel t)
        (fun dst t => by beta_reduce; rw [startAndWait_withDeleteFile])
  | RunCommands commands =>
    simp only [Client.invoke]
    unfold Client.RunCommands Client.mktemp
    rw [deferred_fst, deferred_fst]
    exact withTemp_fst c del _ _ _ []
      (fun dst t => (c.withDeleteFile del).startAndWait urlParse
        (batchSpec c.GuestFamily (join commands ";") dst)
        (batchSpec c.GuestFamily (join commands ";") dst).ProgramPath (some dst) fuel t)
      (fun dst t => c.startAndWait urlParse (batchSpec c.GuestFamily (join commands ";") dst)
        (batchSpec c.GuestFamily (join commands ";") dst).ProgramPath (some dst) fuel t)
      (fun dst t => by beta_reduce; rw [startAndWait_withDeleteFile])
  | RunCommand command =>
    simp only [Client.invoke]
    unfold Client.RunCommand Client.mktemp
    exact withTemp_fst c del _ _ _ []
      (fun dst t => (c.withDeleteFile del).startAndWait urlParse
        (batchSpec c.GuestFamily command dst)
        (batchSpec c.GuestFamily command dst).ProgramPath (some dst) fuel t)
      (fun dst t => c.startAndWait urlParse (batchSpec c.GuestFamily command dst)
        (batchSpec c.GuestFamily command dst).ProgramPath (some dst) fuel t)
      (fun dst t => by beta_reduce; rw [startAndWait_withDeleteFile])
  | RunSimpleCommands commands =>
    simp only [Client.invoke]
    exact RunSimpleCommands_withDeleteFile urlParse c del commands fuel []
  | RunScript script =>
    simp only [Client.invoke]
    unfold Client.RunScript Client.mktemp
    rw [deferred_fst, deferred_fst]
    refine withTemp_fst c del _ _ _ []
      (fun execfile t =>
        match (c.withDeleteFile del).Upload (.stringsReader script) execfile DefaultUpload true t
          with
        | (some err, tr) => some (.returned (some err), tr)
        | (none, tr) =>
          match (c.withDeleteFile del).createTemporaryFile "govmomi-" "" "" tr with
          | (.error err, tr) => some (.returned (some err), tr)
          | (.ok outFile, tr) =>
            deferred ((c.withDeleteFile del).rm outFile) <|
              if c.GuestFamily = VirtualMachineGuestOsFamilyWindowsGuest then
                (c.withDeleteFile del).startAndWait urlParse
                  { ProgramPath := powershell
                    Arguments := join [execfile, "| Out-File", outFile, "-encoding ASCII"] " "
                    WorkingDirectory := ""
                    EnvVariables := [] }
                  powershell (some outFile) fuel tr
              else
                some (.returned (some (.Errorf "not a windows system")), tr))
      (fun execfile t =>
        match c.Upload (.stringsReader script) execfile DefaultUpload true t with
        | (some err, tr) => some (.returned (some err), tr)
        | (none, tr) =>
          match c.createTemporaryFile "govmomi-" "" "" tr with
          | (.error err, tr) => some (.returned (some err), tr)
          | (.ok outFile, tr) =>
            deferred (c.rm outFile) <|
              if c.GuestFamily = VirtualMachineGuestOsFamilyWindowsGuest then
                c.startAndWait urlParse
                  { ProgramPath := powershell
                    Arguments := join [execfile, "| Out-File", outFile, "-encoding ASCII"] " "
                    WorkingDirectory := ""
                    EnvVariables := [] }
                  powershell (some outFile) fuel tr
              else
                some (.returned (some (.Errorf "not a windows system")), tr)) ?_
    intro execfile t
    beta_reduce
    have hu : (c.withDeleteFile del).Upload (.stringsReader script) execfile DefaultUpload true t =
        c.Upload (.stringsReader script) execfile DefaultUpload true t := rfl
    rw [hu]
    rcases c.Upload (.stringsReader script) execfile DefaultUpload true t with ⟨res, tu⟩
    cases res with
    | some err => rfl
    | none =>
      simp only []
      exact withTemp_fst c del _ _ _ tu
        (fun outFile tr =>
          if c.GuestFamily = VirtualMachineGuestOsFamilyWindowsGuest then
            (c.withDeleteFile del).startAndWait urlParse
              { ProgramPath := powershell
                Arguments := join [execfile, "| Out-File", outFile, "-encoding ASCII"] " "
                WorkingDirectory := ""
                EnvVariables := [] }
              powershell (some outFile) fuel tr
          else
            some (.returned (some (.Errorf "not a windows system")), tr))
        (fun outFile tr =>
          if c.GuestFamily = VirtualMachineGuestOsFamilyWindowsGuest then
            c.startAndWait urlParse
              { ProgramPath := powershell
                Arguments := join [execfile, "| Out-File", outFile, "-encoding ASCII"] " "
                WorkingDirectory := ""
                EnvVariables := [] }
              powershell (some outFile) fuel tr
          else
            some (.returned (some (.Errorf "not a windows system")), tr))
        (fun outFile tr => by
          beta_reduce
          rw [startAndWait_withDeleteFile])

theorem uploadStaged_withDeleteFile (urlParse : String → Except Error String) (c : Client)
    (del : Trace → String → Option Error) (vcFile dst : String) (f : Reader) (isDir : Bool)
    (fuel : Nat) (tr : Trace) :
    ((c.withDeleteFile del).uploadStaged urlParse vcFile dst f isDir fuel tr).map Prod.fst =
      (c.uploadStaged urlParse vcFile dst f isDir fuel tr).map Prod.fst := by
  unfold Client.uploadStaged
  have hu : (c.withDeleteFile del).Upload f vcFile DefaultUpload true tr =
      c.Upload f vcFile DefaultUpload true tr := rfl
  rw [hu]
  rcases c.Upload f vcFile DefaultUpload true tr with ⟨res, tu⟩
  cases res with
  | some err => rfl
  | none =>
    simp only []
    cases isDir with
    | false => rfl
    | true =>
      simp only [if_true]
      have hr := RunSimpleCommands_withDeleteFile urlParse c del
        ["mkdir " ++ dst ++ " -Force", "tar -xzvf " ++ vcFile ++ " -C " ++ dst] fuel tu
      cases h1 : (c.withDeleteFile del).RunSimpleCommands urlParse
          ["mkdir " ++ dst ++ " -Force", "tar -xzvf " ++ vcFile ++ " -C " ++ dst] fuel tu with
      | none =>
        cases h2 : c.RunSimpleCommands urlParse
            ["mkdir " ++ dst ++ " -Force", "tar -xzvf " ++ vcFile ++ " -C " ++ dst] fuel tu with
        | none => rfl
        | some r2 => rw [h1, h2] at hr; simp at hr
      | some r1 =>
        cases h2 : c.RunSimpleCommands urlParse
            ["mkdir " ++ dst ++ " -Force", "tar -xzvf " ++ vcFile ++ " -C " ++ dst] fuel tu with
        | none => rw [h1, h2] at hr; simp at hr
        | some r2 =>
          rw [h1, h2] at hr
          obtain ⟨o1, t1⟩ := r1
          obtain ⟨o2, t2⟩ := r2
          simp only [Option.map_some', Option.some.injEq] at hr
          subst hr
          cases o1 <;> rfl

/-- C12: the outcome of a run method and of `UploadFile`, and with it the error
returned to the caller, is the same whatever `DeleteFile` answers, in particular the
same as when every deletion succeeds: the error of a deletion is never returned and
never replaces the result. -/
theorem C12_delete_errors_not_returned (urlParse : String → Except Error String) (c : Client)
    (del : Trace → String → Option Error) (inv : Invocation) (fuel : Nat)
    (dst : String) (f : Reader) (isDir : Bool) (fuel2 : Nat) :
    ((c.withDeleteFile del).invoke urlParse inv fuel).map Prod.fst =
        ((c.withDeleteFile fun _ _ => none).invoke urlParse inv fuel).map Prod.fst ∧
      ((c.withDeleteFile del).UploadFile urlParse dst f isDir fuel2 []).map Prod.fst =
        ((c.withDeleteFile fun _ _ => none).UploadFile urlParse dst f isDir fuel2 []).map
          Prod.fst := by
  refine ⟨by rw [invoke_withDeleteFile, invoke_withDeleteFile], ?_⟩
  have hf : ∀ d : Trace → String → Option Error,
      ((c.withDeleteFile d).UploadFile urlParse dst f isDir fuel2 []).map Prod.fst =
        (c.UploadFile urlParse dst f isDir fuel2 []).map Prod.fst := by
    intro d
    unfold Client.UploadFile
    have hc : (c.withDeleteFile d).createTemporaryFile "" "" "" [] =
        c.createTemporaryFile "" "" "" [] := rfl
    rw [hc]
    unfold Client.createTemporaryFile
    simp only []
    cases c.FileManager.CreateTemporaryFile [] "" "" "" with
    | error err => rfl
    | ok vcFile =>
      simp only []
      rw [deferred_fst, deferred_fst]
      exact uploadStaged_withDeleteFile urlParse c d vcFile dst f isDir fuel2 _
  rw [hf del, hf fun _ _ => none]

theorem join_five (a b d e f : String) :
    join [a, b, d, e, f] " " = a ++ " " ++ b ++ " " ++ d ++ " " ++ e ++ " " ++ f := rfl

theorem batchSpec_windows (payload p : String) :
    batchSpec VirtualMachineGuestOsFamilyWindowsGuest payload p =
      { ProgramPath := "C:\\WINDOWS\\system32\\WindowsPowerShell\\v1.0\\powershell.exe"
        Arguments := "-Command \"& \x7b " ++ payload ++ " \x7d\" | Out-File " ++ p ++
          " -encoding ASCII"
        WorkingDirectory := ""
        EnvVariables := [] } := by
  unfold batchSpec
  rw [if_pos rfl, join_five]
  simp only [powershell, GuestProgramSpec.mk.injEq, and_true, true_and]
  apply String.ext
  simp [String.data_append]

/-- C13: on a guest of the Windows family, with `p` the scratch path answered to
`mktemp`, the program specification that `RunCommands` and `RunSimpleCommands` hand
to `StartProgram` has the fixed PowerShell path as `ProgramPath` and
`-Command "& { J }" | Out-File p -encoding ASCII` as `Arguments`, `J` being the
commands joined by ";". -/
theorem C13_batch_program_spec (urlParse : String → Except Error String) (c : Client)
    (cs : List String) (inv : Invocation) (fuel : Nat) (o : Outcome) (tr : Trace) (p : String)
    (hinv : inv = .RunCommands cs ∨ inv = .RunSimpleCommands cs)
    (hf : c.GuestFamily = VirtualMachineGuestOsFamilyWindowsGuest)
    (hp : c.FileManager.CreateTemporaryFile [] "govmomi-" "" "" = .ok p)
    (h : c.invoke urlParse inv fuel = some (o, tr)) :
    started tr =
      [{ ProgramPath := "C:\\WINDOWS\\system32\\WindowsPowerShell\\v1.0\\powershell.exe"
         Arguments := "-Command \"& \x7b " ++ join cs ";" ++ " \x7d\" | Out-File " ++ p ++
           " -encoding ASCII"
         WorkingDirectory := ""
         EnvVariables := [] }] := by
  rw [← batchSpec_windows]
  rcases hinv with rfl | rfl
  · simp only [Client.invoke, Client.RunCommands, Client.mktemp, Client.createTemporaryFile, hp,
      hf] at h
    obtain ⟨r0, h0, hr⟩ := deferred_eq_some _ _ _ h
    obtain ⟨r1, h1, hr1⟩ := deferred_eq_some _ _ _ h0
    obtain ⟨new, hn, _, _, hst, _⟩ := startAndWait_trace urlParse c _ _ _ fuel _ r1 h1
    simp only [Prod.mk.injEq] at hr
    obtain ⟨_, rfl⟩ := hr
    subst hr1
    simp [hn, Client.rm, started_append, started, hst]
  · simp only [Client.invoke, Client.RunSimpleCommands, Client.mktemp, Client.createTemporaryFile,
      hp, hf] at h
    obtain ⟨r1, h1, hr1⟩ := deferred_eq_some _ _ _ h
    obtain ⟨new, hn, _, _, hst, _⟩ := startAndWait_trace urlParse c _ _ _ fuel _ r1 h1
    simp only [Prod.mk.injEq] at hr1
    obtain ⟨_, rfl⟩ := hr1
    simp [hn, Client.rm, started_append, started, hst]

theorem C13_batch_program_spec_witness :
    started (traceOf idleRun) =
      [{ ProgramPath := "C:\\WINDOWS\\system32\\WindowsPowerShell\\v1.0\\powershell.exe"
         Arguments := "-Command \"& \x7b " ++ join ["echo hi"] ";" ++ " \x7d\" | Out-File " ++
           "govmomi-a" ++ " -encoding ASCII"
         WorkingDirectory := ""
         EnvVariables := [] }] :=
  C13_batch_program_spec parsePlain idleGuest ["echo hi"] (.RunCommands ["echo hi"]) 5
    (.returned none) (traceOf idleRun) "govmomi-a" (Or.inl rfl) (by decide) (by decide)
    (by decide)

theorem Run_spec_fallback (family : String) (cmd : Cmd) (args : List String)
    (hf : family ≠ VirtualMachineGuestOsFamilyWindowsGuest) :
    Run.spec family cmd args = fallbackSpec cmd args := by
  unfold Run.spec fallbackSpec
  rw [if_neg hf]
  by_cases hs : '/' ∈ cmd.Path.toList
  · have hc : (!cmd.Path.toList.contains '/') = false := by simp; exact hs
    rw [if_pos hs, hc]
    rfl
  · have hc : (!cmd.Path.toList.contains '/') = true := by simp; exact hs
    rw [if_neg hs, hc, if_pos rfl]
    have hj : ∀ a b : String, join [a, b] " " = a ++ " " ++ b := fun _ _ => rfl
    rw [hj]
    simp only [GuestProgramSpec.mk.injEq, and_true, true_and]
    apply String.ext
    simp [String.data_append]

/-- C14 (counterexample): on a Linux guest the command `bin/ls -l`, whose path
does not begin with "/", is started with its own path and not through `/bin/bash`. -/
theorem C14_relative_path_with_slash :
    hasPrefix relativeCmd.Path "/" = false ∧
      ((linuxGuest.invoke parsePlain (.Run relativeCmd) 5).map fun r => started r.2) =
        some [{ ProgramPath := "bin/ls", Arguments := "-l", WorkingDirectory := "",
                EnvVariables := [] }] := by
  decide

/-- C14 (amended): on a guest that is not of the Windows family `Run` starts a
command whose path contains no "/" with `ProgramPath` "/bin/bash" and `Arguments`
"-c '" followed by the path and the arguments joined by single spaces and by "'";
a command whose path contains a "/" is started with its own path and its arguments
joined by single spaces. The arguments are `cmd.Args`, followed by the output
redirection when `cmd.Stdout` is set; in that case nothing is started if the scratch
file cannot be created. -/
theorem C14_bash_fallback (urlParse : String → Except Error String) (c : Client)
    (cmd : Cmd) (fuel : Nat) (o : Outcome) (tr : Trace)
    (hf : c.GuestFamily ≠ VirtualMachineGuestOsFamilyWindowsGuest)
    (h : c.invoke urlParse (.Run cmd) fuel = some (o, tr)) :
    (cmd.Stdout = none ∧ started tr = [fallbackSpec cmd cmd.Args]) ∨
      (cmd.Stdout ≠ none ∧ ∃ err, tr = [.CreateTemporaryFile "govmomi-" "" "" (.error err), .close]) ∨
      (cmd.Stdout ≠ none ∧ ∃ dst, started tr =
        [fallbackSpec cmd (cmd.Args ++ ["| Out-File ", dst, " -encoding ASCII"])]) := by
  simp only [Client.invoke, Client.Run, Client.mktemp, Client.createTemporaryFile] at h
  obtain ⟨r0, h0, hr⟩ := deferred_eq_some _ _ _ h
  simp only [Prod.mk.injEq] at hr
  obtain ⟨_, rfl⟩ := hr
  cases hs : cmd.Stdout with
  | none =>
    rw [hs] at h0
    simp only [] at h0
    obtain ⟨new, hn, _, _, hst, _⟩ := startAndWait_trace urlParse c _ _ _ fuel _ r0 h0
    left
    refine ⟨rfl, ?_⟩
    simp [hn, started_append, started, hst, Run_spec_fallback _ _ _ hf]
  | some w =>
    rw [hs] at h0
    simp only [] at h0
    right
    cases hc : c.FileManager.CreateTemporaryFile [] "govmomi-" "" "" with
    | error err =>
      rw [hc] at h0
      simp only [Option.some.injEq] at h0
      subst h0
      left
      exact ⟨by simp, err, by simp⟩
    | ok dst =>
      rw [hc] at h0
      simp only [] at h0
      obtain ⟨r1, h1, hr1⟩ := deferred_eq_some _ _ _ h0
      obtain ⟨new, hn, _, _, hst, _⟩ := startAndWait_trace urlParse c _ _ _ fuel _ r1 h1
      subst hr1
      right
      refine ⟨by simp, dst, ?_⟩
      simp [hn, Client.rm, started_append, started, hst, Run_spec_fallback _ _ _ hf]

theorem C14_bash_fallback_witness :
    (plainCmd.Stdout = none ∧
        started (traceOf (linuxGuest.invoke parsePlain (.Run plainCmd) 5)) =
          [fallbackSpec plainCmd plainCmd.Args]) ∨
      (plainCmd.Stdout ≠ none ∧ ∃ err, traceOf (linuxGuest.invoke parsePlain (.Run plainCmd) 5) =
        [.CreateTemporaryFile "govmomi-" "" "" (.error err), .close]) ∨
      (plainCmd.Stdout ≠ none ∧ ∃ dst,
        started (traceOf (linuxGuest.invoke parsePlain (.Run plainCmd) 5)) =
          [fallbackSpec plainCmd (plainCmd.Args ++ ["| Out-File ", dst, " -encoding ASCII"])]) :=
  C14_bash_fallback parsePlain linuxGuest plainCmd 5 (.returned none)
    (traceOf (linuxGuest.invoke parsePlain (.Run plainCmd) 5)) (by decide) (by decide)

/-- C15: one call `archiveReader.Read(buf)` in which the underlying reader returned
`(nr, err)`: when `nr >= 3` and `buf[nr-3:nr]` is the signature the call returns
`(nr-3, io.EOF)`, otherwise `(nr, err)`; the count returned is at most `nr`, and the
bytes handed to the caller are the first bytes of what the underlying reader wrote. -/
theorem C15_single_read (buf : Bytes) (nr : Nat) (err : Option Error) (hnr : nr ≤ buf.length) :
    archiveReader.Read buf nr err =
        (if nr ≥ 3 ∧ subslice buf (nr - 3) nr = [0x1f, 0x8b, 0x08] then (nr - 3, some .EOF)
          else (nr, err)) ∧
      (archiveReader.Read buf nr err).1 ≤ nr ∧
      (buf.take (archiveReader.Read buf nr err).1 <+: buf.take nr) ∧
      (buf.take (archiveReader.Read buf nr err).1).length = (archiveReader.Read buf nr err).1 := by
  have hread : archiveReader.Read buf nr err =
      (if nr ≥ 3 ∧ subslice buf (nr - 3) nr = [0x1f, 0x8b, 0x08] then (nr - 3, some .EOF)
        else (nr, err)) := by
    unfold archiveReader.Read
    have h3 : gzipHeaderLen = 3 := rfl
    have hh : gzipHeader = [0x1f, 0x8b, 0x08] := rfl
    rw [h3, hh]
    by_cases h1 : nr ≥ 3
    · by_cases h2 : subslice buf (nr - 3) nr = [0x1f, 0x8b, 0x08]
      · rw [if_pos h1, if_pos h2, if_pos ⟨h1, h2⟩]
      · rw [if_pos h1, if_neg h2, if_neg (fun h => h2 h.2)]
    · rw [if_neg h1, if_neg (fun h => h1 h.1)]
  have hle : (archiveReader.Read buf nr err).1 ≤ nr := by
    rw [hread]
    split
    · exact Nat.sub_le _ _
    · exact le_refl _
  refine ⟨hread, hle, ?_, ?_⟩
  · have ht : buf.take (archiveReader.Read buf nr err).1 =
        (buf.take nr).take (archiveReader.Read buf nr err).1 := by
      rw [List.take_take, Nat.min_eq_left hle]
    rw [ht]
    exact List.take_prefix _ _
  · rw [List.length_take]
    omega

theorem C15_single_read_witness :
    archiveReader.Read [7, 0x1f, 0x8b, 0x08, 0, 0] 4 none =
        (if 4 ≥ 3 ∧ subslice [7, 0x1f, 0x8b, 0x08, 0, 0] (4 - 3) 4 = [0x1f, 0x8b, 0x08] then
          (4 - 3, some .EOF) else (4, none)) ∧
      (archiveReader.Read [7, 0x1f, 0x8b, 0x08, 0, 0] 4 none).1 ≤ 4 ∧
      (List.take (archiveReader.Read [7, 0x1f, 0x8b, 0x08, 0, 0] 4 none).1
        ([7, 0x1f, 0x8b, 0x08, 0, 0] : Bytes) <+: List.take 4 [7, 0x1f, 0x8b, 0x08, 0, 0]) ∧
      (List.take (archiveReader.Read [7, 0x1f, 0x8b, 0x08, 0, 0] 4 none).1
        ([7, 0x1f, 0x8b, 0x08, 0, 0] : Bytes)).length =
        (archiveReader.Read [7, 0x1f, 0x8b, 0x08, 0, 0] 4 none).1 :=
  C15_single_read [7, 0x1f, 0x8b, 0x08, 0, 0] 4 none (by decide)

theorem PanicCause_closed : RunClosed PanicCause where
  ret := by intro err h; simp at h
  createFailed := by
    intro pfx sfx dir err new o h hp
    simpa [emptyReports, outputs] using h hp
  temp := by
    intro pfx sfx dir dst res new o h hp
    simpa [emptyReports, outputs, emptyReports_append, outputs_append] using h hp
  close := by
    intro new o h hp
    simpa [emptyReports, outputs, emptyReports_append, outputs_append] using h hp
  upload := by
    intro pre new o hpre h hp
    obtain ⟨_, _, h3, h4⟩ := uploadSteps_quiet pre hpre
    simpa [emptyReports_append, outputs_append, h3, h4] using h hp

theorem PanicCause_startAndWait (urlParse : String → Except Error String) (c : Client)
    (spec : GuestProgramSpec) (name : String) (out : Option String) (fuel : Nat) (t : Trace)
    (r : Outcome × Trace) (h : c.startAndWait urlParse spec name out fuel t = some r) :
    ∃ new, r.2 = t ++ new ∧ PanicCause new r.1 := by
  obtain ⟨new, h1, _, h3⟩ := startAndWait_steps urlParse c spec name out fuel t r h
  exact ⟨new, h1, h3⟩

theorem inBounds_of_monotone :
    ∀ (xs : List (Bytes × Int)) (l : Int), 0 ≤ l →
      (∀ x ∈ xs, x.2 = (x.1.length : Int)) →
      List.Chain' (· ≤ ·) (l :: xs.map Prod.snd) → inBounds l xs := by
  intro xs
  induction xs with
  | nil => intro l _ _ _; trivial
  | cons x xs ih =>
    intro l h0 hlen hch
    obtain ⟨content, n⟩ := x
    have hn : n = (content.length : Int) := hlen (content, n) (by simp)
    simp only [List.map_cons, List.chain'_cons] at hch
    obtain ⟨hln, hrest⟩ := hch
    refine ⟨?_, ih n (le_trans h0 hln) (fun y hy => hlen y (by simp [hy])) hrest⟩
    unfold sliceString
    rw [if_pos ⟨h0, hln, le_of_eq hn⟩]
    rfl

/-- C16: in a streaming run in which no status query is answered with an empty
list, every download reports the byte length of the content read, and the reported
lengths do not decrease from poll to poll, the run does not panic: every slice
`buf.String()[l:n]` has `0 <= l <= n <= len`, `l` being the recorded offset. And a
tick that goes on to the next poll hands on, as the recorded offset, the length `l2`
reported by its download. -/
theorem C16_slices_in_bounds (urlParse : String → Except Error String) (c : Client)
    (inv : Invocation) (fuel : Nat) (o : Outcome) (tr : Trace)
    (path : String) (l : Int) (t : Trace) (l2 : Int)
    (_hs : inv.streaming = true)
    (h : c.invoke urlParse inv fuel = some (o, tr))
    (hne : emptyReports tr = 0)
    (hlen : ∀ x ∈ outputs tr, x.2 = (x.1.length : Int))
    (hmono : List.Chain' (· ≤ ·) ((outputs tr).map Prod.snd))
    (ht : (c.pollOutput urlParse (some path) l t).1 = .next l2) :
    o ≠ .panicked ∧ inBounds 0 (outputs tr) ∧
      ∃ content, outputs (c.pollOutput urlParse (some path) l t).2 =
        outputs t ++ [(content, l2)] := by
  have hb : inBounds 0 (outputs tr) := by
    refine inBounds_of_monotone _ 0 (le_refl _) hlen ?_
    cases ho : outputs tr with
    | nil => simp
    | cons x xs =>
      rw [ho] at hmono
      simp only [List.map_cons, List.chain'_cons]
      refine ⟨?_, hmono⟩
      rw [hlen x (by simp [ho])]
      exact Int.natCast_nonneg _
  have hp : PanicCause tr o := closed_invoke PanicCause PanicCause_closed urlParse c
    (PanicCause_startAndWait urlParse c) inv fuel _ h
  refine ⟨?_, hb, ?_⟩
  · intro hpan
    rcases hp hpan with h1 | h1
    · exact h1 hne
    · exact h1 hb
  · obtain ⟨new, hn, _, _, _, _, hout⟩ := pollOutput_steps urlParse c (some path) l t
    obtain ⟨content, hc⟩ := hout l2 path rfl ht
    exact ⟨content, by rw [hn, outputs_append, hc]⟩

theorem C16_slices_in_bounds_witness :
    Outcome.returned none ≠ .panicked ∧ inBounds 0 (outputs (traceOf idleRun)) ∧
      ∃ content, outputs (idleGuest.pollOutput parsePlain (some "govmomi-a") 0 []).2 =
        outputs [] ++ [(content, 2)] :=
  C16_slices_in_bounds parsePlain idleGuest (.RunCommands ["echo hi"]) 5 (.returned none)
    (traceOf idleRun) "govmomi-a" 0 [] 2 rfl (by decide) (by decide)
    (by
      have ho : outputs (traceOf idleRun) =
          [([104, 105], 2), ([104, 105], 2), ([104, 105, 13, 10], 4)] := by decide
      rw [ho]
      decide)
    (by
      have ho : outputs (traceOf idleRun) =
          [([104, 105], 2), ([104, 105], 2), ([104, 105, 13, 10], 4)] := by decide
      rw [ho]
      simp)
    rfl

end Toolbox
